import Mathlib

/-!
Verification of the udptools repository (record/playback of UDP traffic to a
timestamped, line-oriented trace format).

The development shallowly embeds the Python sources:
  * `udptools.py`   — trace codec (`Packet.parse_packet`, the `"%.10f\t%s\n"`
    writer format), the linear-scan seek `find_timestamp`, the buffering play
    loop `play`, and the `Player`/`Recorder` session layer;
  * `udpplay.py`    — the `UDPPlay` controller and its `__play_loop`;
  * `udpdump.py`    — the `UDPDump` controller and its `__dump_loop`;
  * `udp_dump.py`   — the legacy `dump` function.

Python floats are modelled as exact rationals extended with the IEEE special
values (`inf`, `-inf`, `nan`); machine strings are `List Char`; byte strings
are `List Nat` with every element `< 256`.
-/

/-- Model of a Python float value: a finite value (modelled exactly as a
rational), positive/negative infinity, or NaN. -/
inductive PyFloat where
  | finite (q : ℚ)
  | inf
  | ninf
  | nan
deriving DecidableEq

namespace PyFloat

/-- Python `x <= y` on floats: any comparison involving NaN is false. -/
def le : PyFloat → PyFloat → Bool
  | finite a, finite b => a ≤ b
  | finite _, inf => true
  | finite _, ninf => false
  | inf, inf => true
  | inf, finite _ => false
  | inf, ninf => false
  | ninf, ninf => true
  | ninf, finite _ => true
  | ninf, inf => true
  | nan, _ => false
  | _, nan => false

/-- Python `x < y` on floats: any comparison involving NaN is false. -/
def lt : PyFloat → PyFloat → Bool
  | finite a, finite b => a < b
  | finite _, inf => true
  | finite _, ninf => false
  | inf, _ => false
  | ninf, ninf => false
  | ninf, finite _ => true
  | ninf, inf => true
  | nan, _ => false
  | _, nan => false

/-- Python `x >= y` on floats. -/
def ge (a b : PyFloat) : Bool := le b a

/-- Python `x > y` on floats. -/
def gt (a b : PyFloat) : Bool := lt b a

/-- Python `x - y` on floats (NaN-propagating, with the usual rules for
infinities; `inf - inf` is NaN). -/
def sub : PyFloat → PyFloat → PyFloat
  | finite a, finite b => finite (a - b)
  | finite _, inf => ninf
  | finite _, ninf => inf
  | inf, finite _ => inf
  | inf, ninf => inf
  | inf, inf => nan
  | ninf, finite _ => ninf
  | ninf, inf => ninf
  | ninf, ninf => nan
  | nan, _ => nan
  | _, nan => nan

/-- Python `x + y` on floats (NaN-propagating; `inf + (-inf)` is NaN). -/
def add : PyFloat → PyFloat → PyFloat
  | finite a, finite b => finite (a + b)
  | finite _, inf => inf
  | finite _, ninf => ninf
  | inf, finite _ => inf
  | inf, inf => inf
  | inf, ninf => nan
  | ninf, finite _ => ninf
  | ninf, ninf => ninf
  | ninf, inf => nan
  | nan, _ => nan
  | _, nan => nan

@[simp] theorem le_finite_finite (a b : ℚ) : le (finite a) (finite b) = decide (a ≤ b) := rfl

@[simp] theorem lt_finite_finite (a b : ℚ) : lt (finite a) (finite b) = decide (a < b) := rfl

@[simp] theorem ge_finite_finite (a b : ℚ) : ge (finite a) (finite b) = decide (b ≤ a) := rfl

@[simp] theorem gt_finite_finite (a b : ℚ) : gt (finite a) (finite b) = decide (b < a) := rfl

@[simp] theorem sub_finite_finite (a b : ℚ) : sub (finite a) (finite b) = finite (a - b) := rfl

@[simp] theorem add_finite_finite (a b : ℚ) : add (finite a) (finite b) = finite (a + b) := rfl

theorem lt_false_of_gt {a : PyFloat} (h : gt a (finite 0) = true) :
    lt a (finite 0) = false := by
  cases a <;> simp_all [gt, lt]
  exact h.le

end PyFloat

/-! ## The Python 2 base64 codec

`udptools.record`, `udpdump.__dump_loop` and `udp_dump.dump` write payloads
with `base64.b64encode`; `Packet.parse_packet` and `udpplay.__play_loop`
read them back with `base64.b64decode`.  On Python 2 `b64encode` is
`binascii.b2a_base64` minus its trailing newline, and `b64decode` is
`binascii.a2b_base64`, which silently skips characters outside the base64
alphabet (and the pad characters appearing at invalid positions) and fails
with `Incorrect padding` only when six-bit groups remain at the end. -/

/-- The base64 alphabet in table order. -/
def b64alphabet : List Char :=
  "ABCDEFGHIJKLMNOPQRSTUVWXYZabcdefghijklmnopqrstuvwxyz0123456789+/".toList

/-- The alphabet character of a six-bit value. -/
def encChar (v : Nat) : Char := b64alphabet.getD v 'A'

/-- Model of C `table_a2b_base64` restricted to data characters:
the six-bit value of an alphabet character, `none` for any other character
(the pad `'='` is handled separately by the decode loop). -/
def b64table (c : Char) : Option Nat :=
  let i := b64alphabet.indexOf c
  if i < 64 then some i else none

/-- A character treated as valid by C `binascii_find_valid`: an ASCII
character whose `table_a2b_base64` entry is not `-1`; in that table the pad
`'='` maps to `0`, so it counts as valid here. -/
def b64findValidChar (c : Char) : Bool :=
  c.toNat ≤ 0x7f && (c = '=' || (b64table c).isSome)

/-- Model of C `binascii_find_valid s len num`: the `(num+1)`-th valid
character of `s`, or `none`. -/
def b64findValid : List Char → Nat → Option Char
  | [], _ => none
  | c :: rest, num =>
    if b64findValidChar c then
      if num = 0 then some c else b64findValid rest (num - 1)
    else b64findValid rest num

/-- One datum emitted (if any) plus the new accumulator after feeding a
six-bit value `v` into the `leftchar`/`leftbits` accumulator of
`binascii.a2b_base64`. -/
def a2bStep (lc lb v : Nat) : Option Nat × Nat × Nat :=
  let lc' := lc * 64 + v
  let lb' := lb + 6
  if 8 ≤ lb' then (some ((lc' / 2 ^ (lb' - 8)) % 256), lc' % 2 ^ (lb' - 8), lb' - 8)
  else (none, lc', lb')

/-- Model of the loop of Python 2 `binascii.a2b_base64`.  State: `qp` is
`quad_pos`, `lc` is `leftchar`, `lb` is `leftbits`.  Characters above
`0x7f` and `'\r'`, `'\n'`, `' '` are skipped before any other test; a pad
character at `quad_pos < 2`, or at `quad_pos = 2` when the next valid
character is not another pad, is skipped; a pad in a valid position ends
the input successfully; characters outside the alphabet are skipped; at the
end of input, remaining bits mean `Error: Incorrect padding` (`none`). -/
def a2bLoop : List Char → Nat → Nat → Nat → Option (List Nat)
  | [], _, _, lb => if lb = 0 then some [] else none
  | c :: rest, qp, lc, lb =>
    if 0x7f < c.toNat ∨ c = '\r' ∨ c = '\n' ∨ c = ' ' then a2bLoop rest qp lc lb
    else if c = '=' then
      if qp < 2 ∨ (qp = 2 ∧ b64findValid (c :: rest) 1 ≠ some '=') then a2bLoop rest qp lc lb
      else some []
    else
      match b64table c with
      | none => a2bLoop rest qp lc lb
      | some v =>
        match a2bStep lc lb v with
        | (some byte, lc', lb') => (a2bLoop rest ((qp + 1) % 4) lc' lb').map (byte :: ·)
        | (none, lc', lb') => a2bLoop rest ((qp + 1) % 4) lc' lb'

/-- Python 2 `base64.b64decode` on a string: `none` models the raised
`binascii.Error`/`TypeError`. -/
def b64decodePy (s : List Char) : Option (List Nat) := a2bLoop s 0 0 0

/-- Python 2 `base64.b64encode` (standard base64 with `'='` padding, no line
wrapping). -/
def b64encode : List Nat → List Char
  | [] => []
  | [a] => [encChar (a / 4), encChar (a % 4 * 16), '=', '=']
  | [a, b] => [encChar (a / 4), encChar (a % 4 * 16 + b / 16), encChar (b % 16 * 4), '=']
  | a :: b :: c :: rest =>
    encChar (a / 4) :: encChar (a % 4 * 16 + b / 16) ::
      encChar (b % 16 * 4 + c / 64) :: encChar (c % 64) :: b64encode rest

theorem encChar_facts (v : Nat) (hv : v < 64) :
    b64table (encChar v) = some v ∧ (encChar v).toNat ≤ 0x7f ∧ encChar v ≠ '\r' ∧
      encChar v ≠ '\n' ∧ encChar v ≠ ' ' ∧ encChar v ≠ '=' ∧ encChar v ≠ '\t' := by
  have h : ∀ w : Fin 64, b64table (encChar w.val) = some w.val ∧
      (encChar w.val).toNat ≤ 0x7f ∧ encChar w.val ≠ '\r' ∧ encChar w.val ≠ '\n' ∧
      encChar w.val ≠ ' ' ∧ encChar w.val ≠ '=' ∧ encChar w.val ≠ '\t' := by decide
  exact h ⟨v, hv⟩

theorem a2bLoop_cons (c : Char) (rest : List Char) (qp lc lb : Nat) :
    a2bLoop (c :: rest) qp lc lb =
      if 0x7f < c.toNat ∨ c = '\r' ∨ c = '\n' ∨ c = ' ' then a2bLoop rest qp lc lb
      else if c = '=' then
        if qp < 2 ∨ (qp = 2 ∧ b64findValid (c :: rest) 1 ≠ some '=') then a2bLoop rest qp lc lb
        else some []
      else
        match b64table c with
        | none => a2bLoop rest qp lc lb
        | some v =>
          match a2bStep lc lb v with
          | (some byte, lc', lb') => (a2bLoop rest ((qp + 1) % 4) lc' lb').map (byte :: ·)
          | (none, lc', lb') => a2bLoop rest ((qp + 1) % 4) lc' lb' := rfl

theorem a2bLoop_enc_nofull (v : Nat) (hv : v < 64) (rest : List Char) (qp lc lb : Nat)
    (h8 : lb + 6 < 8) :
    a2bLoop (encChar v :: rest) qp lc lb = a2bLoop rest ((qp + 1) % 4) (lc * 64 + v) (lb + 6) := by
  obtain ⟨ht, hle, hr, hn, hs, he, -⟩ := encChar_facts v hv
  rw [a2bLoop_cons, if_neg (by push_neg; exact ⟨by omega, hr, hn, hs⟩), if_neg he, ht]
  simp only [a2bStep, if_neg (by omega : ¬ 8 ≤ lb + 6)]

theorem a2bLoop_enc_full (v : Nat) (hv : v < 64) (rest : List Char) (qp lc lb : Nat)
    (h8 : 8 ≤ lb + 6) :
    a2bLoop (encChar v :: rest) qp lc lb =
      (a2bLoop rest ((qp + 1) % 4) ((lc * 64 + v) % 2 ^ (lb - 2)) (lb - 2)).map
        ((lc * 64 + v) / 2 ^ (lb - 2) % 256 :: ·) := by
  obtain ⟨ht, hle, hr, hn, hs, he, -⟩ := encChar_facts v hv
  rw [a2bLoop_cons, if_neg (by push_neg; exact ⟨by omega, hr, hn, hs⟩), if_neg he, ht]
  simp only [a2bStep, if_pos h8]
  have : lb + 6 - 8 = lb - 2 := by omega
  rw [this]

theorem a2bLoop_pad1_qp3 (x : Nat) : a2bLoop ['='] 3 x 2 = some [] := rfl

theorem a2bLoop_pad2_qp2 (x : Nat) : a2bLoop ['=', '='] 2 x 4 = some [] := rfl

/-- Round trip of the Python 2 base64 codec on byte strings. -/
theorem a2bLoop_b64encode : ∀ bs : List Nat, (∀ x ∈ bs, x < 256) →
    a2bLoop (b64encode bs) 0 0 0 = some bs
  | [], _ => by simp [b64encode, a2bLoop]
  | [a], h => by
    have ha : a < 256 := h a (by simp)
    rw [b64encode, a2bLoop_enc_nofull (a / 4) (by omega) _ _ _ _ (by omega),
      a2bLoop_enc_full (a % 4 * 16) (by omega) _ _ _ _ (by omega)]
    have h1 : (0 * 64 + a / 4) * 64 + a % 4 * 16 = 16 * a := by omega
    rw [h1]
    norm_num
    exact ⟨a2bLoop_pad2_qp2 _, by omega⟩
  | [a, b], h => by
    have ha : a < 256 := h a (by simp)
    have hb : b < 256 := h b (by simp)
    rw [b64encode, a2bLoop_enc_nofull (a / 4) (by omega) _ _ _ _ (by omega),
      a2bLoop_enc_full (a % 4 * 16 + b / 16) (by omega) _ _ _ _ (by omega)]
    have h1 : (0 * 64 + a / 4) * 64 + (a % 4 * 16 + b / 16) = 16 * a + b / 16 := by omega
    rw [h1]
    norm_num
    rw [a2bLoop_enc_full (b % 16 * 4) (by omega) _ _ _ _ (by omega)]
    have h2 : (16 * a + b / 16) % 16 * 64 + b % 16 * 4 = b / 16 % 16 * 64 + b % 16 * 4 := by
      omega
    rw [h2]
    norm_num
    exact ⟨⟨a2bLoop_pad1_qp3 _, by omega⟩, by omega⟩
  | a :: b :: c :: rest, h => by
    have ha : a < 256 := h a (by simp)
    have hb : b < 256 := h b (by simp)
    have hc : c < 256 := h c (by simp)
    have ih := a2bLoop_b64encode rest (fun x hx => h x (by simp [hx]))
    rw [b64encode, a2bLoop_enc_nofull (a / 4) (by omega) _ _ _ _ (by omega),
      a2bLoop_enc_full (a % 4 * 16 + b / 16) (by omega) _ _ _ _ (by omega)]
    have h1 : (0 * 64 + a / 4) * 64 + (a % 4 * 16 + b / 16) = 16 * a + b / 16 := by omega
    rw [h1]
    norm_num
    rw [a2bLoop_enc_full (b % 16 * 4 + c / 64) (by omega) _ _ _ _ (by omega)]
    have h2 : (16 * a + b / 16) % 16 * 64 + (b % 16 * 4 + c / 64) =
        b / 16 % 16 * 64 + b % 16 * 4 + c / 64 := by omega
    rw [h2]
    norm_num
    rw [a2bLoop_enc_full (c % 64) (by omega) _ _ _ _ (by omega)]
    have h3 : (b / 16 % 16 * 64 + b % 16 * 4 + c / 64) % 4 * 64 + c % 64 =
        c / 64 % 4 * 64 + c % 64 := by omega
    rw [h3]
    norm_num
    simp only [Nat.mod_one]
    exact ⟨⟨⟨ih, by omega⟩, by omega⟩, by omega⟩

/-! ## Decimal digits, the `"%.10f"` writer format, and Python `float()`

`udptools.record` and `udpdump.__dump_loop` write each record as
`file_format % (packet_time, packet_data)` with
`file_format = "%.10f\t%s\n"`; `Packet.parse_packet` reads the timestamp
back with `float(parts[0])`.  `%.10f` formats the value in fixed-point
notation with ten fractional digits, rounding to nearest with ties to even. -/

/-- Python whitespace (`string.whitespace`), as stripped by `str.rstrip()`
and ignored around the argument of `float()`. -/
def isPyWs (c : Char) : Bool :=
  c = ' ' || c = '\t' || c = '\n' || c = '\r' || c = '\x0b' || c = '\x0c'

/-- Python `str.rstrip()` with no argument: remove trailing whitespace. -/
def rstrip (s : List Char) : List Char := (s.reverse.dropWhile isPyWs).reverse

/-- Strip leading and trailing whitespace (`float()` ignores both). -/
def pyStrip (s : List Char) : List Char :=
  ((s.dropWhile isPyWs).reverse.dropWhile isPyWs).reverse

/-- Accumulate one decimal digit character into a value. -/
def valStep (a : Nat) (c : Char) : Nat := a * 10 + (c.toNat - 48)

/-- Numeric value of a string of decimal digit characters. -/
def digitsVal (ds : List Char) : Nat := ds.foldl valStep 0

/-- The character of a decimal digit. -/
def digitChar48 (d : Nat) : Char := Char.ofNat (48 + d)

/-- Decimal digit characters of `n`, most significant first, by repeated
division (`fuel` bounds the recursion so the kernel can evaluate it). -/
def natDigitsAux : Nat → Nat → List Char
  | 0, _ => []
  | fuel + 1, n => if n = 0 then [] else natDigitsAux fuel (n / 10) ++ [digitChar48 (n % 10)]

/-- Decimal representation of `n`, most significant digit first. -/
def natDigits (n : Nat) : List Char := if n = 0 then ['0'] else natDigitsAux (n + 1) n

/-- Left-pad the decimal representation of `m` with zeros to ten digits
(the fractional part written by `%.10f`). -/
def pad10 (m : Nat) : List Char :=
  List.replicate (10 - (natDigits m).length) '0' ++ natDigits m

/-- Round a rational to the nearest integer, ties to even (the rounding of
C `printf`, used by Python's `%` formatting of floats). -/
def rhe (x : ℚ) : ℤ :=
  let f := Rat.floor x
  let r := x - f
  if r < 1 / 2 then f
  else if 1 / 2 < r then f + 1
  else if f % 2 = 0 then f else f + 1

/-- `"%.10f"` of a non-negative value. -/
def format10abs (q : ℚ) : List Char :=
  let n := (rhe (q * 10 ^ 10)).toNat
  natDigits (n / 10 ^ 10) ++ '.' :: pad10 (n % 10 ^ 10)

/-- `"%.10f"` of a Python float value (finite case). -/
def format10 (q : ℚ) : List Char :=
  if q < 0 then '-' :: format10abs (-q) else format10abs q

/-- Exponent suffix of the `float()` grammar: a non-empty digit string that
must consume the rest of the input; scales the mantissa by `10 ^ (sg * e)`. -/
def parseExpNat (r : List Char) (m : ℚ) (sg : ℤ) : Option ℚ :=
  let ds := r.takeWhile Char.isDigit
  if ds = [] ∨ r.drop ds.length ≠ [] then none
  else some (m * (10 : ℚ) ^ (sg * (digitsVal ds : ℤ)))

/-- Optionally signed exponent digits. -/
def parseExpDigits (r : List Char) (m : ℚ) : Option ℚ :=
  match r with
  | '+' :: r' => parseExpNat r' m 1
  | '-' :: r' => parseExpNat r' m (-1)
  | _ => parseExpNat r m 1

/-- Either nothing is left, or an `e`/`E` exponent follows. -/
def parseExpPart : List Char → ℚ → Option ℚ
  | [], m => some m
  | 'e' :: r, m => parseExpDigits r m
  | 'E' :: r, m => parseExpDigits r m
  | _, _ => none

/-- Value of integer digits and fractional digits. -/
def mantissaVal (intDs fracDs : List Char) : ℚ :=
  (digitsVal intDs : ℚ) + (digitsVal fracDs : ℚ) / 10 ^ fracDs.length

/-- Magnitude part of the `float()` grammar: digits, an optional point with
further digits (at least one digit in total), and an optional exponent. -/
def parseDecimalMag (r : List Char) : Option ℚ :=
  let intDs := r.takeWhile Char.isDigit
  let r₁ := r.drop intDs.length
  match r₁ with
  | '.' :: r₂ =>
    let fracDs := r₂.takeWhile Char.isDigit
    let r₃ := r₂.drop fracDs.length
    if intDs = [] ∧ fracDs = [] then none
    else parseExpPart r₃ (mantissaVal intDs fracDs)
  | _ => if intDs = [] then none else parseExpPart r₁ (mantissaVal intDs [])

/-- Unsigned part of `float()`: `inf`/`infinity`/`nan` (case-insensitive) or
a decimal magnitude. -/
def parseUnsigned (r : List Char) (neg : Bool) : Option PyFloat :=
  if r.map Char.toLower = "inf".toList ∨ r.map Char.toLower = "infinity".toList then
    some (if neg then .ninf else .inf)
  else if r.map Char.toLower = "nan".toList then some .nan
  else
    match parseDecimalMag r with
    | some q => some (.finite (if neg then -q else q))
    | none => none

/-- Optional sign of `float()`. -/
def parseSigned (l : List Char) : Option PyFloat :=
  match l with
  | [] => none
  | c :: r => if c = '+' then parseUnsigned r false
              else if c = '-' then parseUnsigned r true
              else parseUnsigned l false

/-- Model of Python 2 `float(s)` on a string: `none` models the raised
`ValueError`. -/
def pyParseFloat (s : List Char) : Option PyFloat := parseSigned (pyStrip s)

theorem digitChar48_facts (d : Nat) (hd : d < 10) :
    (digitChar48 d).isDigit = true ∧ (digitChar48 d).toNat - 48 = d ∧
      isPyWs (digitChar48 d) = false ∧ digitChar48 d ≠ '\t' ∧ digitChar48 d ≠ '+' ∧
      digitChar48 d ≠ '-' ∧ (digitChar48 d).toLower = digitChar48 d ∧
      digitChar48 d ≠ '.' ∧ digitChar48 d ≠ 'e' ∧ digitChar48 d ≠ 'E' ∧
      (digitChar48 d).toLower ≠ 'i' ∧ (digitChar48 d).toLower ≠ 'n' := by
  have h : ∀ w : Fin 10, (digitChar48 w.val).isDigit = true ∧
      (digitChar48 w.val).toNat - 48 = w.val ∧ isPyWs (digitChar48 w.val) = false ∧
      digitChar48 w.val ≠ '\t' ∧ digitChar48 w.val ≠ '+' ∧ digitChar48 w.val ≠ '-' ∧
      (digitChar48 w.val).toLower = digitChar48 w.val ∧ digitChar48 w.val ≠ '.' ∧
      digitChar48 w.val ≠ 'e' ∧ digitChar48 w.val ≠ 'E' ∧
      (digitChar48 w.val).toLower ≠ 'i' ∧ (digitChar48 w.val).toLower ≠ 'n' := by decide
  exact h ⟨d, hd⟩

theorem natDigitsAux_eq : ∀ fuel n : Nat, n ≤ fuel →
    natDigitsAux fuel n = (Nat.digits 10 n).reverse.map digitChar48
  | 0, n, h => by
    have : n = 0 := by omega
    subst this
    simp [natDigitsAux]
  | fuel + 1, n, h => by
    rw [natDigitsAux]
    by_cases hn : n = 0
    · subst hn; simp
    · rw [if_neg hn, natDigitsAux_eq fuel (n / 10)
        (by have : n / 10 < n := Nat.div_lt_self (Nat.pos_of_ne_zero hn) (by norm_num); omega)]
      rw [Nat.digits_def' (by norm_num : 1 < 10) (Nat.pos_of_ne_zero hn)]
      simp

theorem natDigits_mem (n : Nat) : ∀ c ∈ natDigits n, ∃ d, d < 10 ∧ c = digitChar48 d := by
  intro c hc
  rw [natDigits] at hc
  by_cases hn : n = 0
  · rw [if_pos hn] at hc
    simp only [List.mem_singleton] at hc
    exact ⟨0, by norm_num, by rw [hc]; rfl⟩
  · rw [if_neg hn, natDigitsAux_eq (n + 1) n (by omega)] at hc
    simp only [List.mem_map, List.mem_reverse] at hc
    obtain ⟨d, hd, rfl⟩ := hc
    exact ⟨d, Nat.digits_lt_base (by norm_num) hd, rfl⟩

theorem natDigits_ne_nil (n : Nat) : natDigits n ≠ [] := by
  rw [natDigits]
  by_cases hn : n = 0
  · rw [if_pos hn]; simp
  · rw [if_neg hn, natDigitsAux_eq (n + 1) n (by omega)]
    simp [Nat.digits_ne_nil_iff_ne_zero.mpr hn]

theorem foldl_rev_digits : ∀ (ds : List Nat) (acc : Nat), (∀ d ∈ ds, d < 10) →
    (ds.reverse.map digitChar48).foldl valStep acc = acc * 10 ^ ds.length + Nat.ofDigits 10 ds
  | [], acc, _ => by simp [Nat.ofDigits]
  | d :: ds, acc, h => by
    have hd : d < 10 := h d (by simp)
    have ih := foldl_rev_digits ds acc (fun x hx => h x (by simp [hx]))
    simp only [List.reverse_cons, List.map_append, List.foldl_append, ih]
    simp only [List.map_cons, List.map_nil, List.foldl_cons, List.foldl_nil, valStep,
      (digitChar48_facts d hd).2.1, Nat.ofDigits_cons, List.length_cons]
    ring

theorem digitsVal_natDigits (n : Nat) : digitsVal (natDigits n) = n := by
  rw [natDigits]
  by_cases hn : n = 0
  · subst hn; rw [if_pos rfl]; rfl
  · rw [if_neg hn, digitsVal, natDigitsAux_eq (n + 1) n (by omega),
      foldl_rev_digits _ 0 (fun d hd => Nat.digits_lt_base (by norm_num) hd)]
    simp [Nat.ofDigits_digits]

theorem natDigits_length_le (m : Nat) (h : m < 10 ^ 10) : (natDigits m).length ≤ 10 := by
  rw [natDigits]
  by_cases hm : m = 0
  · rw [if_pos hm]; simp
  · rw [if_neg hm, natDigitsAux_eq (m + 1) m (by omega)]
    simp only [List.length_map, List.length_reverse]
    rw [Nat.digits_len 10 m (by norm_num) hm]
    have := Nat.log_lt_of_lt_pow hm h
    omega

theorem pad10_length (m : Nat) (h : m < 10 ^ 10) : (pad10 m).length = 10 := by
  have := natDigits_length_le m h
  simp only [pad10, List.length_append, List.length_replicate]
  omega

theorem pad10_mem (m : Nat) : ∀ c ∈ pad10 m, ∃ d, d < 10 ∧ c = digitChar48 d := by
  intro c hc
  rw [pad10, List.mem_append] at hc
  rcases hc with hc | hc
  · rw [List.eq_of_mem_replicate hc]
    exact ⟨0, by norm_num, rfl⟩
  · exact natDigits_mem m c hc

theorem digitsVal_pad10 (m : Nat) : digitsVal (pad10 m) = digitsVal (natDigits m) := by
  rw [pad10, digitsVal, List.foldl_append]
  have : ∀ k, (List.replicate k '0').foldl valStep 0 = 0 := by
    intro k
    induction k with
    | zero => rfl
    | succ k ih => simpa [List.replicate_succ, valStep] using ih
  rw [this]
  rfl

theorem rat_floor_coe (q : ℚ) : Rat.floor q = ⌊q⌋ := by
  rw [Rat.floor_def', Rat.floor_def]

theorem rhe_sub_abs_le (x : ℚ) : |(rhe x : ℚ) - x| ≤ 1 / 2 := by
  rw [rhe]
  simp only [rat_floor_coe]
  have h1 : (⌊x⌋ : ℚ) ≤ x := Int.floor_le x
  have h2 : x < ⌊x⌋ + 1 := Int.lt_floor_add_one x
  split_ifs with hlt hgt hev <;> rw [abs_le] <;> constructor <;> push_cast <;> linarith

theorem rhe_nonneg (x : ℚ) (hx : 0 ≤ x) : 0 ≤ rhe x := by
  rw [rhe]
  simp only [rat_floor_coe]
  have h1 : (0 : ℤ) ≤ ⌊x⌋ := Int.floor_nonneg.mpr hx
  split_ifs with hlt hgt hev
  · exact h1
  · omega
  · exact h1
  · omega

theorem rhe_intCast (n : ℤ) : rhe ((n : ℚ)) = n := by
  rw [rhe]
  simp only [rat_floor_coe, Int.floor_intCast]
  norm_num

theorem takeWhile_all (p : Char → Bool) : ∀ l : List Char, (∀ x ∈ l, p x = true) →
    l.takeWhile p = l
  | [], _ => rfl
  | c :: l, h => by
    simp [List.takeWhile_cons, h c (by simp), takeWhile_all p l (fun x hx => h x (by simp [hx]))]

theorem takeWhile_append_cons (p : Char → Bool) : ∀ (xs : List Char) (y : Char) (ys : List Char),
    (∀ x ∈ xs, p x = true) → p y = false → (xs ++ y :: ys).takeWhile p = xs
  | [], y, ys, _, hy => by simp [List.takeWhile_cons, hy]
  | x :: xs, y, ys, hxs, hy => by
    simp [List.cons_append, List.takeWhile_cons, hxs x (by simp),
      takeWhile_append_cons p xs y ys (fun c hc => hxs c (by simp [hc])) hy]

theorem dropWhile_all_false (p : Char → Bool) : ∀ l : List Char, (∀ x ∈ l, p x = false) →
    l.dropWhile p = l
  | [], _ => rfl
  | c :: l, h => by simp [List.dropWhile_cons, h c (by simp)]

theorem pyStrip_eq_self (l : List Char) (h : ∀ c ∈ l, isPyWs c = false) : pyStrip l = l := by
  rw [pyStrip, dropWhile_all_false _ l h,
    dropWhile_all_false _ l.reverse (fun c hc => h c (List.mem_reverse.mp hc)), List.reverse_reverse]

theorem rstrip_append_newline (l : List Char) (h : ∀ c ∈ l, isPyWs c = false) :
    rstrip (l ++ ['\n']) = l := by
  rw [rstrip, List.reverse_append]
  simp only [List.reverse_cons, List.reverse_nil, List.nil_append, List.singleton_append,
    List.dropWhile_cons]
  norm_num [show isPyWs '\n' = true from rfl]
  rw [dropWhile_all_false _ l.reverse (fun c hc => h c (List.mem_reverse.mp hc)),
    List.reverse_reverse]

theorem format10abs_chars (q : ℚ) :
    ∀ c ∈ format10abs q, (∃ d, d < 10 ∧ c = digitChar48 d) ∨ c = '.' := by
  intro c hc
  rw [format10abs, List.mem_append] at hc
  rcases hc with hc | hc
  · exact Or.inl (natDigits_mem _ c hc)
  · rcases List.mem_cons.mp hc with hc | hc
    · exact Or.inr hc
    · exact Or.inl (pad10_mem _ c hc)

theorem format10abs_not_ws (q : ℚ) : ∀ c ∈ format10abs q, isPyWs c = false := by
  intro c hc
  rcases format10abs_chars q c hc with ⟨d, hd, rfl⟩ | rfl
  · exact (digitChar48_facts d hd).2.2.1
  · decide

theorem parseSigned_digit (d : Nat) (hd : d < 10) (rest : List Char) :
    parseSigned (digitChar48 d :: rest) = parseUnsigned (digitChar48 d :: rest) false := by
  obtain ⟨-, -, -, -, hplus, hminus, -, -, -, -, -, -⟩ := digitChar48_facts d hd
  rw [parseSigned]
  rw [if_neg hplus, if_neg hminus]

theorem parseUnsigned_digit (d : Nat) (hd : d < 10) (rest : List Char) :
    parseUnsigned (digitChar48 d :: rest) false =
      match parseDecimalMag (digitChar48 d :: rest) with
      | some q => some (.finite q)
      | none => none := by
  obtain ⟨-, -, -, -, -, -, -, -, -, -, hi, hn⟩ := digitChar48_facts d hd
  have hinf : "inf".toList = 'i' :: 'n' :: 'f' :: [] := rfl
  have hinfinity : "infinity".toList = 'i' :: "nfinity".toList := rfl
  have hnan : "nan".toList = 'n' :: 'a' :: 'n' :: [] := rfl
  have h1 : ¬((digitChar48 d :: rest).map Char.toLower = "inf".toList ∨
      (digitChar48 d :: rest).map Char.toLower = "infinity".toList) := by
    rintro (h | h)
    · rw [List.map_cons, hinf] at h
      injection h with h1 _
      exact hi h1
    · rw [List.map_cons, hinfinity] at h
      injection h with h1 _
      exact hi h1
  have h2 : ¬(digitChar48 d :: rest).map Char.toLower = "nan".toList := by
    intro h
    rw [List.map_cons, hnan] at h
    injection h with h1 _
    exact hn h1
  rw [parseUnsigned, if_neg h1, if_neg h2]
  simp only [Bool.false_eq_true, if_false]

theorem parseDecimalMag_format (a b : Nat) (hb : b < 10 ^ 10) :
    parseDecimalMag (natDigits a ++ '.' :: pad10 b) =
      some ((a : ℚ) + (b : ℚ) / 10 ^ 10) := by
  have hdigA : ∀ x ∈ natDigits a, x.isDigit = true := by
    intro x hx
    obtain ⟨d, hd, rfl⟩ := natDigits_mem a x hx
    exact (digitChar48_facts d hd).1
  have hdigB : ∀ x ∈ pad10 b, x.isDigit = true := by
    intro x hx
    obtain ⟨d, hd, rfl⟩ := pad10_mem b x hx
    exact (digitChar48_facts d hd).1
  have ht : (natDigits a ++ '.' :: pad10 b).takeWhile Char.isDigit = natDigits a :=
    takeWhile_append_cons _ _ _ _ hdigA (by decide)
  rw [parseDecimalMag, ht, List.drop_left]
  simp only [takeWhile_all _ (pad10 b) hdigB, List.drop_length]
  rw [if_neg (fun h => natDigits_ne_nil a h.1)]
  rw [parseExpPart, mantissaVal, digitsVal_pad10, digitsVal_natDigits, digitsVal_natDigits,
    pad10_length b hb]

/-- Parsing back the `"%.10f"` rendering of a non-negative rational yields
exactly the rounded ten-decimal value. -/
theorem pyParseFloat_format10abs (q : ℚ) (hq : 0 ≤ q) :
    pyParseFloat (format10abs q) =
      some (.finite (((rhe (q * 10 ^ 10) : ℤ) : ℚ) / 10 ^ 10)) := by
  have hn0 : 0 ≤ rhe (q * 10 ^ 10) := rhe_nonneg _ (by positivity)
  rw [pyParseFloat, pyStrip_eq_self _ (format10abs_not_ws q)]
  have hshape : format10abs q =
      natDigits ((rhe (q * 10 ^ 10)).toNat / 10 ^ 10) ++
        '.' :: pad10 ((rhe (q * 10 ^ 10)).toNat % 10 ^ 10) := rfl
  rw [hshape]
  obtain ⟨c, cs, hcons⟩ :=
    List.exists_cons_of_ne_nil (natDigits_ne_nil ((rhe (q * 10 ^ 10)).toNat / 10 ^ 10))
  obtain ⟨d, hd, hcd⟩ := natDigits_mem _ c (by rw [hcons]; simp)
  rw [hcons, hcd, List.cons_append, parseSigned_digit d hd, parseUnsigned_digit d hd,
    ← List.cons_append, ← hcd, ← hcons,
    parseDecimalMag_format _ _ (Nat.mod_lt _ (by norm_num))]
  have hval : (((rhe (q * 10 ^ 10)).toNat / 10 ^ 10 : ℕ) : ℚ) +
      (((rhe (q * 10 ^ 10)).toNat % 10 ^ 10 : ℕ) : ℚ) / 10 ^ 10 =
      (((rhe (q * 10 ^ 10)).toNat : ℕ) : ℚ) / 10 ^ 10 := by
    field_simp
    norm_cast
    omega
  have hc : (((rhe (q * 10 ^ 10)).toNat : ℕ) : ℚ) = ((rhe (q * 10 ^ 10) : ℤ) : ℚ) := by
    exact_mod_cast congrArg (fun z : ℤ => (z : ℚ)) (Int.toNat_of_nonneg hn0)
  rw [hval, hc]

/-- The rounded ten-decimal value of `q` is within `10 ^ (-10)` of `q`. -/
theorem rhe_div_close (q : ℚ) : |((rhe (q * 10 ^ 10) : ℤ) : ℚ) / 10 ^ 10 - q| ≤ 1 / 10 ^ 10 := by
  have h := rhe_sub_abs_le (q * 10 ^ 10)
  have hpos : (0 : ℚ) < 10 ^ 10 := by positivity
  have heq : ((rhe (q * 10 ^ 10) : ℤ) : ℚ) / 10 ^ 10 - q =
      (((rhe (q * 10 ^ 10) : ℤ) : ℚ) - q * 10 ^ 10) / 10 ^ 10 := by
    field_simp
    ring
  have h1 : |((rhe (q * 10 ^ 10) : ℤ) : ℚ) - q * 10 ^ 10| ≤ 1 := le_trans h (by norm_num)
  rw [heq, abs_div, abs_of_pos hpos]
  gcongr

/-! ## The trace codec: `Packet.parse_packet` and the writer format -/

/-- Python `str.split("\t")`: split at every tab, keeping empty parts. -/
def splitTab : List Char → List (List Char)
  | [] => [[]]
  | c :: rest =>
    if c = '\t' then [] :: splitTab rest
    else
      match splitTab rest with
      | p :: ps => (c :: p) :: ps
      | [] => [[c]]

/-- The failure modes of `Packet.parse_packet` (`udptools.py`).  All four
raise sites raise `ValueError`, with four distinct messages; the spec's
taxonomy groups `invalidFloatFormat` ("Invalid float format for timestamp")
and `invalidTimestamp` ("Got invalid timestamp") as `InvalidTimestamp`. -/
inductive ParseErr where
  | malformedRecord
  | invalidFloatFormat
  | invalidTimestamp
  | invalidPayload
deriving DecidableEq

deriving instance DecidableEq for Except

/-- Model of `Packet.parse_packet` (`udptools.py` lines 233-267): split on
tab and require exactly two parts; convert the first with `float()` and
require the result `>= 0.0`; strip trailing whitespace from the second and
base64-decode it. -/
def parse_packet (raw : List Char) : Except ParseErr (PyFloat × List Nat) :=
  match splitTab raw with
  | [p0, p1] =>
    match pyParseFloat p0 with
    | none => .error .invalidFloatFormat
    | some ts =>
      if PyFloat.ge ts (.finite 0) then
        match b64decodePy (rstrip p1) with
        | some d => .ok (ts, d)
        | none => .error .invalidPayload
      else .error .invalidTimestamp
  | _ => .error .malformedRecord

/-- The line written for one record by `udptools.record` and
`udpdump.__dump_loop`: `file_format % (packet_time, packet_data)` with
`file_format = "%.10f\t%s\n"` and `packet_data = b64encode(raw_packet)`. -/
def encodeRecord (t : ℚ) (p : List Nat) : List Char :=
  format10 t ++ '\t' :: (b64encode p ++ ['\n'])

theorem splitTab_ne_nil : ∀ s : List Char, splitTab s ≠ []
  | [] => by simp [splitTab]
  | c :: rest => by
    rw [splitTab]
    split_ifs
    · simp
    · cases h : splitTab rest <;> simp

theorem splitTab_no_tab : ∀ s : List Char, (∀ c ∈ s, c ≠ '\t') → splitTab s = [s]
  | [], _ => rfl
  | c :: rest, h => by
    rw [splitTab, if_neg (h c (by simp)), splitTab_no_tab rest (fun x hx => h x (by simp [hx]))]

theorem splitTab_append : ∀ (xs ys : List Char), (∀ c ∈ xs, c ≠ '\t') →
    splitTab (xs ++ '\t' :: ys) = xs :: splitTab ys
  | [], ys, _ => by simp [splitTab]
  | x :: xs, ys, h => by
    rw [List.cons_append, splitTab, if_neg (h x (by simp)),
      splitTab_append xs ys (fun c hc => h c (by simp [hc]))]

theorem encChar_extra (v : Nat) (hv : v < 64) :
    isPyWs (encChar v) = false ∧ encChar v ≠ '\t' := by
  have h : ∀ w : Fin 64, isPyWs (encChar w.val) = false ∧ encChar w.val ≠ '\t' := by decide
  exact h ⟨v, hv⟩

theorem b64encode_chars : ∀ p : List Nat, (∀ b ∈ p, b < 256) → ∀ c ∈ b64encode p,
    (∃ v, v < 64 ∧ c = encChar v) ∨ c = '='
  | [], _, c, hc => by simp [b64encode] at hc
  | [a], hp, c, hc => by
    have ha : a < 256 := hp a (by simp)
    rw [b64encode] at hc
    simp only [List.mem_cons, List.not_mem_nil, or_false] at hc
    rcases hc with rfl | rfl | rfl | rfl
    · exact Or.inl ⟨_, by omega, rfl⟩
    · exact Or.inl ⟨_, by omega, rfl⟩
    · exact Or.inr rfl
    · exact Or.inr rfl
  | [a, b], hp, c, hc => by
    have ha : a < 256 := hp a (by simp)
    have hb : b < 256 := hp b (by simp)
    rw [b64encode] at hc
    simp only [List.mem_cons, List.not_mem_nil, or_false] at hc
    rcases hc with rfl | rfl | rfl | rfl
    · exact Or.inl ⟨_, by omega, rfl⟩
    · exact Or.inl ⟨_, by omega, rfl⟩
    · exact Or.inl ⟨_, by omega, rfl⟩
    · exact Or.inr rfl
  | a :: b :: x :: rest, hp, c, hc => by
    have ha : a < 256 := hp a (by simp)
    have hb : b < 256 := hp b (by simp)
    have hx : x < 256 := hp x (by simp)
    rw [b64encode] at hc
    simp only [List.mem_cons] at hc
    rcases hc with rfl | rfl | rfl | rfl | hc
    · exact Or.inl ⟨_, by omega, rfl⟩
    · exact Or.inl ⟨_, by omega, rfl⟩
    · exact Or.inl ⟨_, by omega, rfl⟩
    · exact Or.inl ⟨_, by omega, rfl⟩
    · exact b64encode_chars rest (fun y hy => hp y (by simp [hy])) c hc

theorem b64encode_not_ws (p : List Nat) (hp : ∀ b ∈ p, b < 256) :
    ∀ c ∈ b64encode p, isPyWs c = false := by
  intro c hc
  rcases b64encode_chars p hp c hc with ⟨v, hv, rfl⟩ | rfl
  · exact (encChar_extra v hv).1
  · decide

theorem b64encode_no_tab (p : List Nat) (hp : ∀ b ∈ p, b < 256) :
    ∀ c ∈ b64encode p, c ≠ '\t' := by
  intro c hc
  rcases b64encode_chars p hp c hc with ⟨v, hv, rfl⟩ | rfl
  · exact (encChar_extra v hv).2
  · decide

theorem format10abs_no_tab (q : ℚ) : ∀ c ∈ format10abs q, c ≠ '\t' := by
  intro c hc
  rcases format10abs_chars q c hc with ⟨d, hd, rfl⟩ | rfl
  · exact (digitChar48_facts d hd).2.2.2.1
  · decide

theorem parse_packet_encodeRecord (t : ℚ) (ht : 0 ≤ t) (p : List Nat)
    (hp : ∀ b ∈ p, b < 256) :
    parse_packet (encodeRecord t p) =
      .ok (.finite (((rhe (t * 10 ^ 10) : ℤ) : ℚ) / 10 ^ 10), p) := by
  have hfmt : format10 t = format10abs t := if_neg (not_lt.mpr ht)
  have hsplit : splitTab (encodeRecord t p) = [format10abs t, b64encode p ++ ['\n']] := by
    rw [encodeRecord, hfmt, splitTab_append _ _ (format10abs_no_tab t),
      splitTab_no_tab (b64encode p ++ ['\n'])]
    intro c hc
    rcases List.mem_append.mp hc with hc | hc
    · exact b64encode_no_tab p hp c hc
    · rcases List.mem_singleton.mp hc with rfl
      decide
  have hnn : (0 : ℚ) ≤ ((rhe (t * 10 ^ 10) : ℤ) : ℚ) / 10 ^ 10 := by
    have := rhe_nonneg (t * 10 ^ 10) (by positivity)
    positivity
  rw [parse_packet, hsplit]
  simp only [pyParseFloat_format10abs t ht, PyFloat.ge_finite_finite]
  rw [if_pos (by simpa using hnn)]
  rw [rstrip_append_newline _ (b64encode_not_ws p hp), b64decodePy, a2bLoop_b64encode p hp]

/-- Claim C1 (confirmed).  Codec round-trip: for every finite timestamp
`t >= 0.0` and every byte-sequence payload, decoding the encoded line
(format `"%.10f\t" + base64(payload) + "\n"`) yields back the same
`(timestamp, payload)` pair — the payload bit-for-bit, and the timestamp
within the ten-decimal-digit precision of the fixed-point formatting. -/
theorem roundtrip_encode_decode (t : ℚ) (ht : 0 ≤ t) (p : List Nat)
    (hp : ∀ b ∈ p, b < 256) :
    ∃ t' : ℚ, parse_packet (encodeRecord t p) = .ok (.finite t', p) ∧
      |t' - t| ≤ 1 / 10 ^ 10 :=
  ⟨_, parse_packet_encodeRecord t ht p hp, rhe_div_close t⟩

/-- Witness for C1 at `t = 3/2`, payload `"Man" = [77, 97, 110]`. -/
theorem roundtrip_encode_decode_witness :
    (0 : ℚ) ≤ 3 / 2 ∧ (∀ b ∈ [77, 97, 110], b < 256) ∧
      ∃ t' : ℚ, parse_packet (encodeRecord (3 / 2) [77, 97, 110]) =
          .ok (.finite t', [77, 97, 110]) ∧ |t' - 3 / 2| ≤ 1 / 10 ^ 10 :=
  ⟨by norm_num, by decide, roundtrip_encode_decode (3 / 2) (by norm_num) [77, 97, 110] (by decide)⟩

/-- Claim C5 counterexample.  The claim states decoding fails when the first
part does not parse as a non-negative finite number, but Python's
`float('inf')` yields infinity and `inf >= 0.0` holds, so
`parse_packet "inf\tAA==\n"` succeeds with a non-finite timestamp. -/
theorem parse_accepts_infinity_cex :
    parse_packet "inf\tAA==\n".toList = .ok (.inf, [0]) ∧
      ∀ q : ℚ, (PyFloat.inf : PyFloat) ≠ .finite q :=
  ⟨by with_unfolding_all decide, fun q h => by cases h⟩

/-- Claim C5 (amended).  Decode failure modes of `Packet.parse_packet`:
splitting on tab must yield exactly two parts (`MalformedRecord`);
the first part must parse as a float (`InvalidTimestamp`, message "Invalid
float format") and the parsed value must satisfy `>= 0.0`
(`InvalidTimestamp`, message "Got invalid timestamp") — a negative
timestamp is a parse error, never a silent clamp, but positive infinity is
accepted; the second part, after stripping trailing whitespace, must be
accepted by the lenient Python 2 base64 decoder (`InvalidPayload`), which
silently skips characters outside the base64 alphabet, so some non-base64
strings such as `"####"` decode successfully.  All four raise sites raise
`ValueError` and are distinguishable only by message text. -/
theorem parse_failure_modes_amended :
    (∀ raw : List Char, (splitTab raw).length ≠ 2 →
        parse_packet raw = .error .malformedRecord) ∧
    (∀ (raw p0 p1 : List Char), splitTab raw = [p0, p1] → pyParseFloat p0 = none →
        parse_packet raw = .error .invalidFloatFormat) ∧
    (∀ (raw p0 p1 : List Char) (ts : PyFloat), splitTab raw = [p0, p1] →
        pyParseFloat p0 = some ts → PyFloat.ge ts (.finite 0) = false →
        parse_packet raw = .error .invalidTimestamp) ∧
    (∀ (raw p0 p1 : List Char) (ts : PyFloat), splitTab raw = [p0, p1] →
        pyParseFloat p0 = some ts → PyFloat.ge ts (.finite 0) = true →
        b64decodePy (rstrip p1) = none → parse_packet raw = .error .invalidPayload) ∧
    parse_packet "-1.0\tAA==\n".toList = .error .invalidTimestamp ∧
    parse_packet "nan\tAA==\n".toList = .error .invalidTimestamp ∧
    parse_packet "0.0\t####\n".toList = .ok (.finite 0, []) := by
  refine ⟨?_, ?_, ?_, ?_, ?_, ?_, ?_⟩
  · intro raw h
    rw [parse_packet]
    cases hs : splitTab raw with
    | nil => rfl
    | cons p0 t =>
      cases t with
      | nil => rfl
      | cons p1 t2 =>
        cases t2 with
        | nil => exact absurd (by rw [hs]; rfl) h
        | cons p2 t3 => rfl
  · intro raw p0 p1 hs hparse
    rw [parse_packet, hs]
    simp only [hparse]
  · intro raw p0 p1 ts hs hparse hge
    rw [parse_packet, hs]
    simp only [hparse, hge, Bool.false_eq_true, if_false]
  · intro raw p0 p1 ts hs hparse hge hdec
    rw [parse_packet, hs]
    simp only [hparse, hge, if_true, hdec]
  · with_unfolding_all decide
  · with_unfolding_all decide
  · with_unfolding_all decide

/-- Witness for the amended C5 at concrete inputs for each failure kind. -/
theorem parse_failure_modes_amended_witness :
    ((splitTab "garbage".toList).length ≠ 2 ∧
      parse_packet "garbage".toList = .error .malformedRecord) ∧
    (splitTab "abc\tAA==\n".toList = ["abc".toList, "AA==\n".toList] ∧
      pyParseFloat "abc".toList = none ∧
      parse_packet "abc\tAA==\n".toList = .error .invalidFloatFormat) ∧
    (b64decodePy (rstrip "!x!\n".toList) = none ∧
      parse_packet "1.0\t!x!\n".toList = .error .invalidPayload) :=
  ⟨⟨by decide, parse_failure_modes_amended.1 _ (by decide)⟩,
    ⟨by decide, by decide,
      parse_failure_modes_amended.2.1 "abc\tAA==\n".toList "abc".toList "AA==\n".toList
        (by decide) (by decide)⟩,
    ⟨by decide,
      parse_failure_modes_amended.2.2.2.1 "1.0\t!x!\n".toList "1.0".toList "!x!\n".toList
        (.finite 1) (by decide) (by with_unfolding_all decide)
        (by with_unfolding_all decide) (by decide)⟩⟩

/-! ## The linear-scan seek `find_timestamp` (`udptools.py` lines 195-225)

A trace file is modelled as its list of lines, each line carrying its
trailing newline; positions are cumulative character counts (the traces are
ASCII, one byte per character).  `previous_position` starts at `0` and
after consuming a line advances by that line's length, matching
`df.tell()` after the read. -/

/-- The scan loop of `find_timestamp`: for each line, parse it (a parse
failure ends the scan), stop before the first line whose timestamp is
`>=` the target, otherwise advance `previous_position` past the line. -/
def find_timestamp_go : List (List Char) → PyFloat → Nat → Nat
  | [], _, prev => prev
  | l :: rest, t, prev =>
    match parse_packet l with
    | .error _ => prev
    | .ok (ts, _) =>
      if PyFloat.ge ts t then prev else find_timestamp_go rest t (prev + l.length)

/-- Model of `find_timestamp(fname, timestamp)`. -/
def find_timestamp (lines : List (List Char)) (target : PyFloat) : Nat :=
  find_timestamp_go lines target 0

/-- The finite timestamp of a line, when it parses as a record. -/
def parsedTs (l : List Char) : Option ℚ :=
  match parse_packet l with
  | .ok (.finite t, _) => some t
  | _ => none

/-- Modelled from the spec's words for comparison: the byte offset
preceding the first record whose timestamp is `>=` the target, that is,
the total length of the longest prefix of records with timestamps below
the target. -/
def seekExpectedOffset (lines : List (List Char)) (q : ℚ) : Nat :=
  ((lines.takeWhile fun l =>
      match parsedTs l with
      | some t => decide (t < q)
      | none => false).map List.length).sum

theorem takeWhile_all_generic {α : Type} (p : α → Bool) : ∀ l : List α,
    (∀ x ∈ l, p x = true) → l.takeWhile p = l
  | [], _ => rfl
  | c :: l, h => by
    simp [List.takeWhile_cons, h c (by simp),
      takeWhile_all_generic p l (fun x hx => h x (by simp [hx]))]

theorem parsedTs_some (l : List Char) (hl : (parsedTs l).isSome = true) :
    ∃ t pd, parse_packet l = .ok (.finite t, pd) ∧ parsedTs l = some t := by
  rw [parsedTs] at hl
  cases hp : parse_packet l with
  | error e => rw [hp] at hl; simp at hl
  | ok r =>
    obtain ⟨ts, pd⟩ := r
    cases ts with
    | finite t => exact ⟨t, pd, rfl, by rw [parsedTs, hp]⟩
    | inf => rw [hp] at hl; simp at hl
    | ninf => rw [hp] at hl; simp at hl
    | nan => rw [hp] at hl; simp at hl

theorem find_timestamp_go_spec (q : ℚ) : ∀ (lines : List (List Char)) (prev : Nat),
    (∀ l ∈ lines, (parsedTs l).isSome = true) →
    find_timestamp_go lines (.finite q) prev = prev + seekExpectedOffset lines q
  | [], prev, _ => by simp [find_timestamp_go, seekExpectedOffset]
  | l :: rest, prev, h => by
    obtain ⟨t, pd, hp, hts⟩ := parsedTs_some l (h l (by simp))
    rw [seekExpectedOffset, List.takeWhile_cons, hts]
    by_cases hq : q ≤ t
    · have hd : decide (t < q) = false := by simp only [decide_eq_false_iff_not]; linarith
      simp only [find_timestamp_go, hp, hd, PyFloat.ge_finite_finite, decide_eq_true_eq,
        Bool.false_eq_true, if_false, if_pos hq]
      simp
    · have hd : decide (t < q) = true := by
        simp only [decide_eq_true_eq]
        linarith [not_le.mp hq]
      simp only [find_timestamp_go, hp, hd, PyFloat.ge_finite_finite, decide_eq_true_eq,
        if_true, if_neg hq]
      rw [find_timestamp_go_spec q rest (prev + l.length) (fun x hx => h x (by simp [hx])),
        seekExpectedOffset]
      simp [Nat.add_assoc]

/-- Claim C3 (confirmed).  Linear-scan seek: on a well-formed trace,
`find_timestamp` returns the byte offset preceding the first record whose
timestamp is `>=` the target; if no such record exists it returns the
end-of-file offset; if the target is at most the first record's timestamp
it returns `0`; and on an empty trace it returns `0`. -/
theorem find_timestamp_linear_scan (lines : List (List Char)) (q : ℚ)
    (hwf : ∀ l ∈ lines, (parsedTs l).isSome = true) :
    find_timestamp lines (.finite q) = seekExpectedOffset lines q ∧
    ((∀ l ∈ lines, ∀ t, parsedTs l = some t → t < q) →
      find_timestamp lines (.finite q) = (lines.map List.length).sum) ∧
    (∀ l0 rest t0, lines = l0 :: rest → parsedTs l0 = some t0 → q ≤ t0 →
      find_timestamp lines (.finite q) = 0) ∧
    find_timestamp [] (.finite q) = 0 := by
  have hmain : find_timestamp lines (.finite q) = seekExpectedOffset lines q := by
    rw [find_timestamp, find_timestamp_go_spec q lines 0 hwf]
    omega
  refine ⟨hmain, ?_, ?_, rfl⟩
  · intro hall
    rw [hmain, seekExpectedOffset, takeWhile_all_generic]
    intro l hl
    obtain ⟨t, pd, hp, hts⟩ := parsedTs_some l (hwf l hl)
    rw [hts]
    simpa using hall l hl t hts
  · intro l0 rest t0 hcons hts0 hq
    subst hcons
    obtain ⟨t, pd, hp, hts⟩ := parsedTs_some l0 (hwf l0 (by simp))
    rw [hts0] at hts
    injection hts with hts
    subst hts
    simp only [find_timestamp, find_timestamp_go, hp, PyFloat.ge_finite_finite,
      decide_eq_true_eq, if_pos hq]

/-- Witness for C3 on the spec's example trace with timestamps
`[0, 1, 2, 3]` and target `1.5`: the seek lands at byte offset 36, the
start of the record with timestamp `2`. -/
theorem find_timestamp_linear_scan_witness :
    (∀ l ∈ [encodeRecord 0 [0], encodeRecord 1 [0], encodeRecord 2 [0], encodeRecord 3 [0]],
        (parsedTs l).isSome = true) ∧
    find_timestamp [encodeRecord 0 [0], encodeRecord 1 [0], encodeRecord 2 [0],
        encodeRecord 3 [0]] (.finite (3 / 2)) =
      seekExpectedOffset [encodeRecord 0 [0], encodeRecord 1 [0], encodeRecord 2 [0],
        encodeRecord 3 [0]] (3 / 2) ∧
    find_timestamp [encodeRecord 0 [0], encodeRecord 1 [0], encodeRecord 2 [0],
        encodeRecord 3 [0]] (.finite (3 / 2)) = 36 :=
  ⟨by with_unfolding_all decide,
    (find_timestamp_linear_scan _ _ (by with_unfolding_all decide)).1,
    by with_unfolding_all decide⟩

/-! ## The recorder loops (`udpdump.__dump_loop`, `udp_dump.dump`) -/

/-- Python exceptions raised by the modelled code. -/
inductive PyErr where
  | assertionError
  | attributeError (attr : String)
  | nameError (name : String)
deriving DecidableEq

/-- Model of the write loop of `UDPDump.__dump_loop` (`udpdump.py` lines
52-96), restricted to the timestamps it writes: given the remaining
sequence of packet receive times (`packet_recv_time` values) and the saved
`first_packet_time`, produce the `packet_time` values written to file.
The first packet is written as exactly `0.0`; later packets as
`packet_recv_time - first_packet_time`; `assert packet_time >= 0.0` fails
if a receive time precedes the first one. -/
def dumpLoopTimes (fpt : Option ℚ) : List ℚ → Except PyErr (List ℚ)
  | [] => .ok []
  | t :: ts =>
    match fpt with
    | none => (dumpLoopTimes (some t) ts).map (fun l => 0 :: l)
    | some t0 =>
      if t - t0 < 0 then .error .assertionError
      else (dumpLoopTimes (some t0) ts).map (fun l => (t - t0) :: l)

/-- Model of the legacy `udp_dump.dump` loop (`udp_dump.py` lines 7-20)
restricted to the timestamps it writes: each line is written as
`"%.5f\t%s\n" % (time.time(), data)` — the absolute wall-clock receive
time, not a time relative to the first packet. -/
def udp_dump_times : List ℚ → List ℚ
  | [] => []
  | t :: ts => t :: udp_dump_times ts

theorem udp_dump_times_eq : ∀ ts : List ℚ, udp_dump_times ts = ts
  | [] => rfl
  | t :: ts => by rw [udp_dump_times, udp_dump_times_eq ts]

theorem dumpLoopTimes_rel : ∀ (t0 : ℚ) (ts : List ℚ), (∀ t ∈ ts, t0 ≤ t) →
    dumpLoopTimes (some t0) ts = .ok (ts.map (· - t0))
  | _, [], _ => rfl
  | t0, t :: ts, h => by
    rw [dumpLoopTimes, if_neg (by have := h t (by simp); simp; linarith),
      dumpLoopTimes_rel t0 ts (fun x hx => h x (by simp [hx]))]
    rfl

/-- Claim C4 counterexample.  The claim says the recorder's first written
timestamp is exactly `0.0`; the legacy `udp_dump.dump` revision instead
writes the absolute receive times: for receive times `[1, 2]` it writes
`[1, 2]`, not `[0, 1]`. -/
theorem udp_dump_absolute_times_cex :
    udp_dump_times [(1 : ℚ), 2] = [1, 2] ∧ ([(1 : ℚ), 2] : List ℚ) ≠ [0, 2 - 1] :=
  ⟨rfl, by with_unfolding_all decide⟩

/-- Claim C4 (amended).  For datagrams received at non-decreasing times
`t0 <= t1 <= ... <= tn`, the `UDPDump.__dump_loop` recorder writes
timestamps exactly `0.0, t1 - t0, ..., tn - t0`, a non-decreasing
sequence; the legacy `udp_dump.dump` writes the absolute times
`t0, ..., tn` instead (its first record is `t0`, not `0.0`). -/
theorem recorder_relative_times_amended (t0 : ℚ) (ts : List ℚ)
    (hmono : List.Chain' (· ≤ ·) (t0 :: ts)) :
    dumpLoopTimes none (t0 :: ts) = .ok (0 :: ts.map (· - t0)) ∧
    List.Chain' (· ≤ ·) (0 :: ts.map (· - t0)) ∧
    udp_dump_times (t0 :: ts) = t0 :: ts := by
  have hpw : List.Pairwise (· ≤ ·) (t0 :: ts) := List.chain'_iff_pairwise.mp hmono
  have hhead : ∀ t ∈ ts, t0 ≤ t := (List.pairwise_cons.mp hpw).1
  have hts : List.Pairwise (· ≤ ·) ts := (List.pairwise_cons.mp hpw).2
  refine ⟨?_, ?_, udp_dump_times_eq _⟩
  · rw [dumpLoopTimes, dumpLoopTimes_rel t0 ts hhead]
    rfl
  · rw [List.chain'_iff_pairwise, List.pairwise_cons]
    constructor
    · intro x hx
      obtain ⟨t, ht, rfl⟩ := List.mem_map.mp hx
      have := hhead t ht
      linarith
    · exact hts.map _ (fun a b hab => by simpa using sub_le_sub_right hab t0)

/-- Witness for the amended C4 at receive times `[1, 3/2, 2]`. -/
theorem recorder_relative_times_amended_witness :
    List.Chain' (· ≤ ·) [(1 : ℚ), 3 / 2, 2] ∧
      dumpLoopTimes none [(1 : ℚ), 3 / 2, 2] = .ok [0, 3 / 2 - 1, 2 - 1] ∧
      List.Chain' (· ≤ ·) [(0 : ℚ), 3 / 2 - 1, 2 - 1] ∧
      udp_dump_times [(1 : ℚ), 3 / 2, 2] = [1, 3 / 2, 2] := by
  have hc : List.Chain' (· ≤ ·) [(1 : ℚ), 3 / 2, 2] := by
    norm_num [List.chain'_cons, List.chain'_singleton]
  have h := recorder_relative_times_amended 1 [3 / 2, 2] hc
  exact ⟨hc, h.1, h.2.1, h.2.2⟩

/-! ## The session controllers (`udpdump.UDPDump`, `udpplay.UDPPlay`,
`udptools.Player`/`Recorder`)

A controller's observable state is its `__proc` slot: `none` for "never
started / reset", `some alive` for a spawned background process whose
liveness is `alive`.  `is_running()`/`is_playing()` is
`proc is not None and proc.is_alive()`. -/

/-- `UDPDump.is_running` / `UDPPlay.is_playing`. -/
def procIsAlive : Option Bool → Bool
  | some alive => alive
  | none => false

/-- The errors raised on a second `start`: `AlreadyRunningError`
(`udptools_exceptions.py`, raised by `UDPDump.dump`) and
`AlreadyPlayingError` (`udpplay.py`, raised by `UDPPlay.play`). -/
inductive StartErr where
  | alreadyRunning
  | alreadyPlaying
deriving DecidableEq

/-- Model of `UDPPlay.play` (`udpplay.py` lines 24-38) restricted to the
session state: raise `AlreadyPlayingError` while playing, otherwise spawn
the playback process (alive). -/
def udpplayStart (st : Option Bool) : Except StartErr (Option Bool) :=
  if procIsAlive st then .error .alreadyPlaying else .ok (some true)

/-- Model of `UDPDump.dump` (`udpdump.py` lines 21-36) restricted to the
session state: raise `AlreadyRunningError` while running, otherwise spawn
the dump process (alive). -/
def udpdumpStart (st : Option Bool) : Except StartErr (Option Bool) :=
  if procIsAlive st then .error .alreadyRunning else .ok (some true)

/-- Model of `UDPPlay.stop` (`udpplay.py` lines 40-51): terminate the
process if playing, join it if it exists (a no-op on a dead process);
never raises. -/
def udpplayStop (st : Option Bool) : Except PyErr (Option Bool) :=
  .ok (if procIsAlive st then some false else st)

/-- Model of `UDPDump.stop` (`udpdump.py` lines 38-50): terminate if
running and join, then `assert not self.__proc.isalive()` — but neither
`None` nor `multiprocessing.Process` has an attribute `isalive` (the
method is spelled `is_alive`), so evaluating the assert expression raises
`AttributeError` in every state, including never-started (`__proc` is
`None`) and already-stopped ones. -/
def udpdumpStop (_st : Option Bool) : Except PyErr (Option Bool) :=
  .error (.attributeError "isalive")

/-- External events observable by a `UDPPlay` controller: a `play` call, the
background playback process reaching the end of the trace and exiting, and
a `stop` call. -/
inductive SessEvent where
  | start
  | taskExit
  | stopCall
deriving DecidableEq

/-- One controller transition per event; a failed `start` leaves the state
unchanged (the exception propagates to the caller). -/
def udpplaySessStep (st : Option Bool) : SessEvent → Option Bool
  | .start =>
    match udpplayStart st with
    | .ok st' => st'
    | .error _ => st
  | .taskExit =>
    match st with
    | some true => some false
    | s => s
  | .stopCall =>
    match udpplayStop st with
    | .ok st' => st'
    | .error _ => st

/-- Claim C8 counterexample.  `is_running()` is not true at every point
between a successful `start` and a successful `stop`: starting playback
succeeds from the fresh state, the playback process then exits naturally
at end of file, and `is_playing()` is already false before the (still
successful) `stop` is ever called. -/
theorem is_running_after_natural_exit_cex :
    udpplayStart none = .ok (some true) ∧
    procIsAlive (udpplaySessStep (some true) .taskExit) = false ∧
    udpplayStop (udpplaySessStep (some true) .taskExit) = .ok (some false) := by
  decide

/-- Claim C8 (amended).  For the `UDPDump` and `UDPPlay` controllers, a
second `start` while the session is running raises
`AlreadyRunningError`/`AlreadyPlayingError` rather than queuing,
overwriting, or returning normally; `is_running()` is true immediately
after a successful `start` and stays true across further (failing) `start`
calls, but drops to false when the background task exits naturally (see
the counterexample) or on `stop`.  The `udptools.Player` session layer is
unreachable: its constructor always raises `NameError` on the bare name
`STOPPED`. -/
theorem session_exclusivity_amended :
    (∀ st, procIsAlive st = true → udpplayStart st = .error .alreadyPlaying) ∧
    (∀ st, procIsAlive st = true → udpdumpStart st = .error .alreadyRunning) ∧
    (∀ st st', udpplayStart st = .ok st' → procIsAlive st' = true) ∧
    (∀ st st', udpdumpStart st = .ok st' → procIsAlive st' = true) ∧
    (∀ st, procIsAlive st = true → procIsAlive (udpplaySessStep st .start) = true) := by
  refine ⟨?_, ?_, ?_, ?_, ?_⟩
  · intro st h
    rw [udpplayStart, if_pos h]
  · intro st h
    rw [udpdumpStart, if_pos h]
  · intro st st' h
    rw [udpplayStart] at h
    by_cases hr : procIsAlive st = true
    · rw [if_pos hr] at h
      cases h
    · rw [if_neg hr] at h
      injection h with h
      rw [← h]
      rfl
  · intro st st' h
    rw [udpdumpStart] at h
    by_cases hr : procIsAlive st = true
    · rw [if_pos hr] at h
      cases h
    · rw [if_neg hr] at h
      injection h with h
      rw [← h]
      rfl
  · intro st h
    rw [udpplaySessStep, udpplayStart, if_pos h]
    exact h

/-- Witness for the amended C8: a second `start` on a live session raises
for both controllers. -/
theorem session_exclusivity_amended_witness :
    procIsAlive (some true) = true ∧
      udpplayStart (some true) = .error .alreadyPlaying ∧
      udpdumpStart (some true) = .error .alreadyRunning :=
  ⟨rfl, session_exclusivity_amended.1 (some true) rfl,
    session_exclusivity_amended.2.1 (some true) rfl⟩

/-- Claim C9 (code bug).  `UDPDump.stop` raises `AttributeError` in every
state — in particular on a never-started controller — because
`self.__proc.isalive()` names a method that exists neither on `None` nor
on `multiprocessing.Process` (which has `is_alive`).  `UDPPlay.stop`, by
contrast, is the claimed no-op on a never-started controller. -/
theorem udpdump_stop_always_raises :
    (∀ st : Option Bool, udpdumpStop st = .error (.attributeError "isalive")) ∧
    udpdumpStop none = .error (.attributeError "isalive") ∧
    udpplayStop none = .ok none :=
  ⟨fun _ => rfl, rfl, rfl⟩

/-! ## The unreachable `udptools.Player`/`Recorder` session layer -/

/-- The names bound at module top level of `udptools.py`: the imports
(`os`, `select`, `socket`, `threading`, `b64encode`, `b64decode`, `time`,
`sleep`) and the module's own definitions.  Python resolves a bare name in
a method body against the local scope, then this module scope, then the
builtins; class attributes such as `Player.STOPPED` are *not* in scope. -/
def udptoolsModuleGlobals : List String :=
  ["os", "select", "socket", "threading", "b64encode", "b64decode", "time", "sleep",
   "synchronized", "play", "record", "find_timestamp_smart", "find_timestamp",
   "Packet", "Player", "Recorder"]

/-- The observable fields a constructed `Player`/`Recorder` would have. -/
structure SessionObj where
  fname : String
  address : String
  state : String
deriving DecidableEq

/-- Model of `Player.__init__` (`udptools.py` lines 275-284): the field
assignments succeed, then `self.__state = STOPPED` evaluates the bare name
`STOPPED`, which is neither local, nor a module global, nor a builtin —
`NameError`. -/
def Player_init (fname address : String) : Except PyErr SessionObj :=
  if "STOPPED" ∈ udptoolsModuleGlobals then .ok ⟨fname, address, "stopped"⟩
  else .error (.nameError "STOPPED")

/-- Model of `Recorder.__init__` (`udptools.py` lines 357-364): identical
structure, same bare `STOPPED`. -/
def Recorder_init (fname address : String) : Except PyErr SessionObj :=
  if "STOPPED" ∈ udptoolsModuleGlobals then .ok ⟨fname, address, "stopped"⟩
  else .error (.nameError "STOPPED")

/-- Claim C10 (confirmed).  Constructing `udptools.Player` or
`udptools.Recorder` raises an unhandled `NameError` for every filename and
address (each initializer assigns the bare name `STOPPED`, undefined
outside the class scope), so no `start`/`stop`/`state` operation of this
revision's session layer can ever be invoked on an instance. -/
theorem player_recorder_init_name_error (fname address : String) :
    Player_init fname address = .error (.nameError "STOPPED") ∧
    Recorder_init fname address = .error (.nameError "STOPPED") := by
  constructor
  · rw [Player_init, if_neg (by decide)]
  · rw [Recorder_init, if_neg (by decide)]

/-! ## The play loops (`udpplay.UDPPlay.__play_loop`, `udptools.play`)

Both loops are modelled over the decoded trace lines with an explicit
clock: `clock k` is the value returned by the `k`-th call to
`time.time()`.  The observable behaviour is the list of actions performed
(`sleep` durations and `send` payloads, in order) together with an
optional abort: an uncaught exception that kills the playback before the
remaining actions happen. -/

/-- A playback side effect: one `time.sleep(d)` or one packet send. -/
inductive PlayAction where
  | sleep (d : PyFloat)
  | send (p : List Nat)
deriving DecidableEq

/-- Uncaught exceptions that terminate a play loop: a decode failure
(`UDPPlay.__play_loop` has no handler), `time.sleep` called with a
negative duration (`IOError: Invalid argument`), and `udptools.play`'s
`sleep(sleep_time)` with `sleep_time` an undefined name (`NameError`). -/
inductive PlayAbort where
  | decodeError
  | negativeSleep
  | nameErrorSleepTime
deriving DecidableEq

/-- The inline record decode of `UDPPlay.__play_loop` (`udpplay.py` lines
91-96): `line.split("\t")` followed by `float(line_parts[0])` and
`b64decode(line_parts[1].rstrip())`; fewer than two parts is an
`IndexError`; extra parts beyond the second are ignored; there is no
`timestamp >= 0` check. -/
def udpplayDecodeLine (l : List Char) : Option (PyFloat × List Nat) :=
  match splitTab l with
  | p0 :: p1 :: _ =>
    match pyParseFloat p0 with
    | some ts =>
      match b64decodePy (rstrip p1) with
      | some d => some (ts, d)
      | none => none
    | none => none
  | _ => none

/-- Loop state of `UDPPlay.__play_loop`: the packet buffer, the saved
`first_packet_timestamp` (meaningful once the buffer is non-empty; the
Python value starts as `None`, modelled as NaN since it is never read
before being set), the `next_play_time`, and the clock index. -/
structure UPState where
  buf : List (List Nat)
  firstTs : PyFloat
  nextPlay : Option PyFloat
  k : Nat
deriving DecidableEq

/-- `packet_timestamp > end_time` (`udpplay.py` line 99). -/
def etCutGt (et : Option ℚ) (ts : PyFloat) : Bool :=
  match et with
  | none => false
  | some e => PyFloat.gt ts (.finite e)

/-- `packet.timestamp >= end_time` (`udptools.py` line 61). -/
def etCutGe (et : Option ℚ) (ts : PyFloat) : Bool :=
  match et with
  | none => false
  | some e => PyFloat.ge ts (.finite e)

/-- The code after `UDPPlay.__play_loop`'s `for` loop (`udpplay.py` lines
143-150): if a batch was played, `time.sleep(next_play_time - time.time())`
unconditionally — a negative argument raises and the remaining buffer is
lost — then send what is left in the buffer. -/
def upFinish (clock : Nat → ℚ) (st : UPState) : List PlayAction × Option PlayAbort :=
  match st.nextPlay with
  | none => (st.buf.map PlayAction.send, none)
  | some npt =>
    let d := PyFloat.sub npt (.finite (clock st.k))
    if PyFloat.lt d (.finite 0) then ([], some .negativeSleep)
    else (PlayAction.sleep d :: st.buf.map PlayAction.send, none)

/-- Model of the `for line in f` loop of `UDPPlay.__play_loop`
(`udpplay.py` lines 87-150).  A record is decoded (failure aborts), the
`end_time` bound is checked with strict `>`, the packet is buffered, and
once `len(buf)` reaches `buflen - 1 = 99` the batch is flushed:
`buffer_time` is the current record's timestamp minus the first buffered
record's timestamp; if a previous batch was played the loop sleeps
`next_play_time - time.time()` only when that is positive; the batch is
sent back-to-back and `next_play_time` becomes the send time plus
`buffer_time`. -/
def udpplayLoop (clock : Nat → ℚ) (et : Option ℚ) : List (List Char) → UPState →
    List PlayAction × Option PlayAbort
  | [], st => upFinish clock st
  | l :: rest, st =>
    match udpplayDecodeLine l with
    | none => ([], some .decodeError)
    | some (ts, pd) =>
      if etCutGt et ts then upFinish clock st
      else
        let buf' := st.buf ++ [pd]
        if buf'.length < 99 then
          udpplayLoop clock et rest
            { st with buf := buf', firstTs := if buf'.length = 1 then ts else st.firstTs }
        else
          let bufferTime := PyFloat.sub ts st.firstTs
          let pk :=
            match st.nextPlay with
            | none => (([] : List PlayAction), st.k)
            | some npt =>
              let d := PyFloat.sub npt (.finite (clock st.k))
              ((if PyFloat.gt d (.finite 0) then [PlayAction.sleep d] else []), st.k + 1)
          let res := udpplayLoop clock et rest
            { buf := [], firstTs := st.firstTs,
              nextPlay := some (PyFloat.add (.finite (clock pk.2)) bufferTime), k := pk.2 + 1 }
          (pk.1 ++ buf'.map PlayAction.send ++ res.1, res.2)

/-- The initial loop state of `UDPPlay.__play_loop`. -/
def upInit : UPState := ⟨[], .nan, none, 0⟩

/-- Loop state of `udptools.play`: the buffer of parsed `Packet`s
(timestamp and data), `next_play_time`, and the clock index. -/
structure TPState where
  buf : List (PyFloat × List Nat)
  nextPlay : Option PyFloat
  k : Nat
deriving DecidableEq

/-- The code after `udptools.play`'s `for` loop (lines 95-102): identical
trailing behaviour to `UDPPlay.__play_loop`. -/
def tpFinish (clock : Nat → ℚ) (st : TPState) : List PlayAction × Option PlayAbort :=
  match st.nextPlay with
  | none => (st.buf.map (fun r => PlayAction.send r.2), none)
  | some npt =>
    let d := PyFloat.sub npt (.finite (clock st.k))
    if PyFloat.lt d (.finite 0) then ([], some .negativeSleep)
    else (PlayAction.sleep d :: st.buf.map (fun r => PlayAction.send r.2), none)

/-- Model of the `for line in f` loop of `udptools.play` (`udptools.py`
lines 46-102), with no `Player` attached (`player=None`).  A record that
fails `Packet(line)` is skipped (`except ValueError: continue`); the
`end_time` bound is checked with `>=`; the batch is flushed at
`buflen = 100`; when a previous batch was played and
`next_play_time - time() > 0`, the loop executes `sleep(sleep_time)` —
but `sleep_time` is an undefined name, so this path raises `NameError`;
otherwise `buffer_time = buf[-1].timestamp - buf[0].timestamp` and
`next_play_time` becomes the send time plus `buffer_time`. -/
def udptoolsPlayLoop (clock : Nat → ℚ) (et : Option ℚ) : List (List Char) → TPState →
    List PlayAction × Option PlayAbort
  | [], st => tpFinish clock st
  | l :: rest, st =>
    match parse_packet l with
    | .error _ => udptoolsPlayLoop clock et rest st
    | .ok (ts, pd) =>
      if etCutGe et ts then tpFinish clock st
      else
        let buf' := st.buf ++ [(ts, pd)]
        if buf'.length < 100 then udptoolsPlayLoop clock et rest { st with buf := buf' }
        else
          let gk :=
            match st.nextPlay with
            | none => (false, st.k)
            | some npt =>
              (PyFloat.gt (PyFloat.sub npt (.finite (clock st.k))) (.finite 0), st.k + 1)
          if gk.1 then ([], some .nameErrorSleepTime)
          else
            let bufferTime :=
              PyFloat.sub (buf'.getLastD (.nan, [])).1 (buf'.headD (.nan, [])).1
            let res := udptoolsPlayLoop clock et rest
              { buf := [], nextPlay := some (PyFloat.add (.finite (clock gk.2)) bufferTime),
                k := gk.2 + 1 }
            (buf'.map (fun r => PlayAction.send r.2) ++ res.1, res.2)

/-- The initial loop state of `udptools.play`. -/
def tpInit : TPState := ⟨[], none, 0⟩

/-- The payloads sent by a run, in order. -/
def sendsOf (as : List PlayAction) : List (List Nat) :=
  as.filterMap fun a =>
    match a with
    | .send p => some p
    | .sleep _ => none

theorem sendsOf_append (a b : List PlayAction) : sendsOf (a ++ b) = sendsOf a ++ sendsOf b :=
  List.filterMap_append a b _

@[simp] theorem sendsOf_nil : sendsOf [] = [] := rfl

@[simp] theorem sendsOf_sleep_cons (d : PyFloat) (as : List PlayAction) :
    sendsOf (.sleep d :: as) = sendsOf as := rfl

@[simp] theorem sendsOf_send_cons (p : List Nat) (as : List PlayAction) :
    sendsOf (.send p :: as) = p :: sendsOf as := rfl

@[simp] theorem sendsOf_map_send : ∀ l : List (List Nat), sendsOf (l.map PlayAction.send) = l
  | [] => rfl
  | p :: l => by rw [List.map_cons, sendsOf_send_cons, sendsOf_map_send l]

@[simp] theorem sendsOf_map_send_pair : ∀ l : List (PyFloat × List Nat),
    sendsOf (l.map (fun r => PlayAction.send r.2)) = l.map (fun r => r.2)
  | [] => rfl
  | p :: l => by
    rw [List.map_cons, sendsOf_send_cons, sendsOf_map_send_pair l, List.map_cons]

theorem upFinish_sends (clock : Nat → ℚ) (st : UPState)
    (hok : (upFinish clock st).2 = none) :
    sendsOf (upFinish clock st).1 = st.buf := by
  rw [upFinish] at hok ⊢
  cases hnp : st.nextPlay with
  | none => simp
  | some npt =>
    simp only [hnp] at hok ⊢
    by_cases hneg : PyFloat.lt (PyFloat.sub npt (.finite (clock st.k))) (.finite 0) = true
    · rw [if_pos hneg] at hok
      simp at hok
    · rw [if_neg hneg] at hok ⊢
      simp

theorem tpFinish_sends (clock : Nat → ℚ) (st : TPState)
    (hok : (tpFinish clock st).2 = none) :
    sendsOf (tpFinish clock st).1 = st.buf.map (fun r => r.2) := by
  rw [tpFinish] at hok ⊢
  cases hnp : st.nextPlay with
  | none => simp
  | some npt =>
    simp only [hnp] at hok ⊢
    by_cases hneg : PyFloat.lt (PyFloat.sub npt (.finite (clock st.k))) (.finite 0) = true
    · rw [if_pos hneg] at hok
      simp at hok
    · rw [if_neg hneg] at hok ⊢
      simp

theorem udpplayLoop_cons (clock : Nat → ℚ) (et : Option ℚ) (l : List Char)
    (rest : List (List Char)) (st : UPState) (ts : PyFloat) (pd : List Nat)
    (h : udpplayDecodeLine l = some (ts, pd)) :
    udpplayLoop clock et (l :: rest) st =
      if etCutGt et ts then upFinish clock st
      else if (st.buf ++ [pd]).length < 99 then
        udpplayLoop clock et rest
          ⟨st.buf ++ [pd], if (st.buf ++ [pd]).length = 1 then ts else st.firstTs,
            st.nextPlay, st.k⟩
      else
        let pk :=
          match st.nextPlay with
          | none => (([] : List PlayAction), st.k)
          | some npt =>
            ((if PyFloat.gt (PyFloat.sub npt (.finite (clock st.k))) (.finite 0) = true
              then [PlayAction.sleep (PyFloat.sub npt (.finite (clock st.k)))] else []),
              st.k + 1)
        let res := udpplayLoop clock et rest
          { buf := [], firstTs := st.firstTs,
            nextPlay := some (PyFloat.add (.finite (clock pk.2)) (PyFloat.sub ts st.firstTs)),
            k := pk.2 + 1 }
        (pk.1 ++ (st.buf ++ [pd]).map PlayAction.send ++ res.1, res.2) := by
  rw [udpplayLoop, h]

theorem udpplayLoop_cons_bad (clock : Nat → ℚ) (et : Option ℚ) (l : List Char)
    (rest : List (List Char)) (st : UPState) (h : udpplayDecodeLine l = none) :
    udpplayLoop clock et (l :: rest) st = ([], some .decodeError) := by
  rw [udpplayLoop, h]

theorem udptoolsPlayLoop_cons (clock : Nat → ℚ) (et : Option ℚ) (l : List Char)
    (rest : List (List Char)) (st : TPState) (ts : PyFloat) (pd : List Nat)
    (h : parse_packet l = .ok (ts, pd)) :
    udptoolsPlayLoop clock et (l :: rest) st =
      if etCutGe et ts then tpFinish clock st
      else if (st.buf ++ [(ts, pd)]).length < 100 then
        udptoolsPlayLoop clock et rest { st with buf := st.buf ++ [(ts, pd)] }
      else
        let gk :=
          match st.nextPlay with
          | none => (false, st.k)
          | some npt =>
            (PyFloat.gt (PyFloat.sub npt (.finite (clock st.k))) (.finite 0), st.k + 1)
        if gk.1 then ([], some .nameErrorSleepTime)
        else
          let res := udptoolsPlayLoop clock et rest
            { buf := [],
              nextPlay := some (PyFloat.add (.finite (clock gk.2))
                (PyFloat.sub ((st.buf ++ [(ts, pd)]).getLastD (.nan, [])).1
                  ((st.buf ++ [(ts, pd)]).headD (.nan, [])).1)),
              k := gk.2 + 1 }
          ((st.buf ++ [(ts, pd)]).map (fun r => PlayAction.send r.2) ++ res.1, res.2) := by
  rw [udptoolsPlayLoop, h]

theorem udptoolsPlayLoop_cons_bad (clock : Nat → ℚ) (et : Option ℚ) (l : List Char)
    (rest : List (List Char)) (st : TPState) (e : ParseErr) (h : parse_packet l = .error e) :
    udptoolsPlayLoop clock et (l :: rest) st = udptoolsPlayLoop clock et rest st := by
  rw [udptoolsPlayLoop, h]

theorem udpplayLoop_cut (clock : Nat → ℚ) (et : Option ℚ) (l : List Char)
    (rest : List (List Char)) (st : UPState) (ts : PyFloat) (pd : List Nat)
    (h : udpplayDecodeLine l = some (ts, pd)) (hcut : etCutGt et ts = true) :
    udpplayLoop clock et (l :: rest) st = upFinish clock st := by
  rw [udpplayLoop_cons clock et l rest st ts pd h, if_pos hcut]

theorem udpplayLoop_fill (clock : Nat → ℚ) (et : Option ℚ) (l : List Char)
    (rest : List (List Char)) (st : UPState) (ts : PyFloat) (pd : List Nat)
    (h : udpplayDecodeLine l = some (ts, pd)) (hcut : etCutGt et ts = false)
    (hlen : (st.buf ++ [pd]).length < 99) :
    udpplayLoop clock et (l :: rest) st =
      udpplayLoop clock et rest
        ⟨st.buf ++ [pd], if (st.buf ++ [pd]).length = 1 then ts else st.firstTs,
          st.nextPlay, st.k⟩ := by
  rw [udpplayLoop_cons clock et l rest st ts pd h, if_neg (by simp [hcut]), if_pos hlen]

theorem udpplayLoop_flush_none (clock : Nat → ℚ) (et : Option ℚ) (l : List Char)
    (rest : List (List Char)) (st : UPState) (ts : PyFloat) (pd : List Nat)
    (h : udpplayDecodeLine l = some (ts, pd)) (hcut : etCutGt et ts = false)
    (hlen : ¬(st.buf ++ [pd]).length < 99) (hnp : st.nextPlay = none) :
    udpplayLoop clock et (l :: rest) st =
      ((st.buf ++ [pd]).map PlayAction.send ++
          (udpplayLoop clock et rest
            ⟨[], st.firstTs,
              some (PyFloat.add (.finite (clock st.k)) (PyFloat.sub ts st.firstTs)),
              st.k + 1⟩).1,
        (udpplayLoop clock et rest
          ⟨[], st.firstTs,
            some (PyFloat.add (.finite (clock st.k)) (PyFloat.sub ts st.firstTs)),
            st.k + 1⟩).2) := by
  rw [udpplayLoop_cons clock et l rest st ts pd h, if_neg (by simp [hcut]), if_neg hlen, hnp]
  rfl

theorem udpplayLoop_flush_some (clock : Nat → ℚ) (et : Option ℚ) (l : List Char)
    (rest : List (List Char)) (st : UPState) (ts npt : PyFloat) (pd : List Nat)
    (h : udpplayDecodeLine l = some (ts, pd)) (hcut : etCutGt et ts = false)
    (hlen : ¬(st.buf ++ [pd]).length < 99) (hnp : st.nextPlay = some npt) :
    udpplayLoop clock et (l :: rest) st =
      ((if PyFloat.gt (PyFloat.sub npt (.finite (clock st.k))) (.finite 0) = true
          then [PlayAction.sleep (PyFloat.sub npt (.finite (clock st.k)))] else []) ++
          (st.buf ++ [pd]).map PlayAction.send ++
          (udpplayLoop clock et rest
            ⟨[], st.firstTs,
              some (PyFloat.add (.finite (clock (st.k + 1))) (PyFloat.sub ts st.firstTs)),
              st.k + 2⟩).1,
        (udpplayLoop clock et rest
          ⟨[], st.firstTs,
            some (PyFloat.add (.finite (clock (st.k + 1))) (PyFloat.sub ts st.firstTs)),
            st.k + 2⟩).2) := by
  rw [udpplayLoop_cons clock et l rest st ts pd h, if_neg (by simp [hcut]), if_neg hlen, hnp]

/-- Sends of a completed (non-aborted) `UDPPlay.__play_loop` run: the
still-buffered payloads of the starting state followed by the payloads of
the records up to (and excluding) the first one with timestamp strictly
above `end_time`. -/
theorem upSends (clock : Nat → ℚ) (et : Option ℚ) (lines : List (List Char))
    (rs : List (ℚ × List Nat))
    (hdec : List.Forall₂ (fun l r => udpplayDecodeLine l = some (.finite r.1, r.2)) lines rs) :
    ∀ st : UPState, (udpplayLoop clock et lines st).2 = none →
      sendsOf (udpplayLoop clock et lines st).1 =
        st.buf ++ (rs.takeWhile fun r => !etCutGt et (.finite r.1)).map (fun r => r.2) := by
  induction hdec with
  | nil =>
    intro st hok
    rw [udpplayLoop] at hok ⊢
    rw [upFinish_sends clock st hok]
    simp
  | @cons l r lines' rs' hlr htl ih =>
    intro st hok
    simp only [List.takeWhile_cons]
    by_cases hcut : etCutGt et (.finite r.1) = true
    · rw [udpplayLoop_cut clock et l lines' st _ _ hlr hcut] at hok ⊢
      rw [upFinish_sends clock st hok]
      simp [hcut]
    · rw [Bool.not_eq_true] at hcut
      simp only [hcut, Bool.not_false, if_true, List.map_cons]
      by_cases hlen : (st.buf ++ [r.2]).length < 99
      · rw [udpplayLoop_fill clock et l lines' st _ _ hlr hcut hlen] at hok ⊢
        rw [ih _ hok]
        simp
      · cases hnp : st.nextPlay with
        | none =>
          rw [udpplayLoop_flush_none clock et l lines' st _ _ hlr hcut hlen hnp] at hok ⊢
          simp only [] at hok
          rw [sendsOf_append]
          simp only [sendsOf_map_send]
          rw [ih _ hok]
          simp
        | some npt =>
          rw [udpplayLoop_flush_some clock et l lines' st _ npt _ hlr hcut hlen hnp] at hok ⊢
          simp only [] at hok
          rw [sendsOf_append, sendsOf_append]
          have hsl : ∀ b : Bool, sendsOf
              (if b = true
                then [PlayAction.sleep (PyFloat.sub npt (.finite (clock st.k)))] else []) = [] := by
            intro b
            cases b <;> rfl
          rw [hsl, sendsOf_map_send, ih _ hok]
          simp

theorem udptoolsPlayLoop_cut (clock : Nat → ℚ) (et : Option ℚ) (l : List Char)
    (rest : List (List Char)) (st : TPState) (ts : PyFloat) (pd : List Nat)
    (h : parse_packet l = .ok (ts, pd)) (hcut : etCutGe et ts = true) :
    udptoolsPlayLoop clock et (l :: rest) st = tpFinish clock st := by
  rw [udptoolsPlayLoop_cons clock et l rest st ts pd h, if_pos hcut]

theorem udptoolsPlayLoop_fill (clock : Nat → ℚ) (et : Option ℚ) (l : List Char)
    (rest : List (List Char)) (st : TPState) (ts : PyFloat) (pd : List Nat)
    (h : parse_packet l = .ok (ts, pd)) (hcut : etCutGe et ts = false)
    (hlen : (st.buf ++ [(ts, pd)]).length < 100) :
    udptoolsPlayLoop clock et (l :: rest) st =
      udptoolsPlayLoop clock et rest ⟨st.buf ++ [(ts, pd)], st.nextPlay, st.k⟩ := by
  rw [udptoolsPlayLoop_cons clock et l rest st ts pd h, if_neg (by simp [hcut]), if_pos hlen]

theorem udptoolsPlayLoop_flush_none (clock : Nat → ℚ) (et : Option ℚ) (l : List Char)
    (rest : List (List Char)) (st : TPState) (ts : PyFloat) (pd : List Nat)
    (h : parse_packet l = .ok (ts, pd)) (hcut : etCutGe et ts = false)
    (hlen : ¬(st.buf ++ [(ts, pd)]).length < 100) (hnp : st.nextPlay = none) :
    udptoolsPlayLoop clock et (l :: rest) st =
      ((st.buf ++ [(ts, pd)]).map (fun r => PlayAction.send r.2) ++
          (udptoolsPlayLoop clock et rest
            ⟨[], some (PyFloat.add (.finite (clock st.k))
              (PyFloat.sub ((st.buf ++ [(ts, pd)]).getLastD (.nan, [])).1
                ((st.buf ++ [(ts, pd)]).headD (.nan, [])).1)), st.k + 1⟩).1,
        (udptoolsPlayLoop clock et rest
          ⟨[], some (PyFloat.add (.finite (clock st.k))
            (PyFloat.sub ((st.buf ++ [(ts, pd)]).getLastD (.nan, [])).1
              ((st.buf ++ [(ts, pd)]).headD (.nan, [])).1)), st.k + 1⟩).2) := by
  rw [udptoolsPlayLoop_cons clock et l rest st ts pd h, if_neg (by simp [hcut]),
    if_neg hlen, hnp]
  rfl

theorem udptoolsPlayLoop_flush_guard (clock : Nat → ℚ) (et : Option ℚ) (l : List Char)
    (rest : List (List Char)) (st : TPState) (ts npt : PyFloat) (pd : List Nat)
    (h : parse_packet l = .ok (ts, pd)) (hcut : etCutGe et ts = false)
    (hlen : ¬(st.buf ++ [(ts, pd)]).length < 100) (hnp : st.nextPlay = some npt)
    (hgt : PyFloat.gt (PyFloat.sub npt (.finite (clock st.k))) (.finite 0) = true) :
    udptoolsPlayLoop clock et (l :: rest) st = ([], some .nameErrorSleepTime) := by
  rw [udptoolsPlayLoop_cons clock et l rest st ts pd h, if_neg (by simp [hcut]),
    if_neg hlen, hnp]
  simp only [hgt, if_true]

theorem udptoolsPlayLoop_flush_noguard (clock : Nat → ℚ) (et : Option ℚ) (l : List Char)
    (rest : List (List Char)) (st : TPState) (ts npt : PyFloat) (pd : List Nat)
    (h : parse_packet l = .ok (ts, pd)) (hcut : etCutGe et ts = false)
    (hlen : ¬(st.buf ++ [(ts, pd)]).length < 100) (hnp : st.nextPlay = some npt)
    (hgt : PyFloat.gt (PyFloat.sub npt (.finite (clock st.k))) (.finite 0) = false) :
    udptoolsPlayLoop clock et (l :: rest) st =
      ((st.buf ++ [(ts, pd)]).map (fun r => PlayAction.send r.2) ++
          (udptoolsPlayLoop clock et rest
            ⟨[], some (PyFloat.add (.finite (clock (st.k + 1)))
              (PyFloat.sub ((st.buf ++ [(ts, pd)]).getLastD (.nan, [])).1
                ((st.buf ++ [(ts, pd)]).headD (.nan, [])).1)), st.k + 2⟩).1,
        (udptoolsPlayLoop clock et rest
          ⟨[], some (PyFloat.add (.finite (clock (st.k + 1)))
            (PyFloat.sub ((st.buf ++ [(ts, pd)]).getLastD (.nan, [])).1
              ((st.buf ++ [(ts, pd)]).headD (.nan, [])).1)), st.k + 2⟩).2) := by
  rw [udptoolsPlayLoop_cons clock et l rest st ts pd h, if_neg (by simp [hcut]),
    if_neg hlen, hnp]
  simp only [hgt, Bool.false_eq_true, if_false]

/-- Sends of a completed (non-aborted) `udptools.play` loop run on a
well-formed trace: the still-buffered payloads of the starting state
followed by the payloads of the records up to (and excluding) the first
one with timestamp `>=` `end_time`. -/
theorem tpSends (clock : Nat → ℚ) (et : Option ℚ) (lines : List (List Char))
    (rs : List (ℚ × List Nat))
    (hdec : List.Forall₂ (fun l r => parse_packet l = .ok (.finite r.1, r.2)) lines rs) :
    ∀ st : TPState, (udptoolsPlayLoop clock et lines st).2 = none →
      sendsOf (udptoolsPlayLoop clock et lines st).1 =
        st.buf.map (fun r => r.2) ++
          (rs.takeWhile fun r => !etCutGe et (.finite r.1)).map (fun r => r.2) := by
  induction hdec with
  | nil =>
    intro st hok
    rw [udptoolsPlayLoop] at hok ⊢
    rw [tpFinish_sends clock st hok]
    simp
  | @cons l r lines' rs' hlr htl ih =>
    intro st hok
    simp only [List.takeWhile_cons]
    by_cases hcut : etCutGe et (.finite r.1) = true
    · rw [udptoolsPlayLoop_cut clock et l lines' st _ _ hlr hcut] at hok ⊢
      rw [tpFinish_sends clock st hok]
      simp [hcut]
    · rw [Bool.not_eq_true] at hcut
      simp only [hcut, Bool.not_false, if_true, List.map_cons]
      by_cases hlen : (st.buf ++ [(PyFloat.finite r.1, r.2)]).length < 100
      · rw [udptoolsPlayLoop_fill clock et l lines' st _ _ hlr hcut hlen] at hok ⊢
        rw [ih _ hok]
        simp
      · cases hnp : st.nextPlay with
        | none =>
          rw [udptoolsPlayLoop_flush_none clock et l lines' st _ _ hlr hcut hlen hnp] at hok ⊢
          simp only [] at hok
          rw [sendsOf_append, sendsOf_map_send_pair, ih _ hok]
          simp
        | some npt =>
          by_cases hgt : PyFloat.gt (PyFloat.sub npt (.finite (clock st.k))) (.finite 0) = true
          · rw [udptoolsPlayLoop_flush_guard clock et l lines' st _ npt _ hlr hcut hlen hnp
              hgt] at hok
            simp at hok
          · rw [Bool.not_eq_true] at hgt
            rw [udptoolsPlayLoop_flush_noguard clock et l lines' st _ npt _ hlr hcut hlen hnp
              hgt] at hok ⊢
            simp only [] at hok
            rw [sendsOf_append, sendsOf_map_send_pair, ih _ hok]
            simp

theorem not_etCutGt_eq (e q : ℚ) : (!etCutGt (some e) (.finite q)) = decide (q ≤ e) := by
  simp only [etCutGt, PyFloat.gt_finite_finite]
  rw [← decide_not, decide_eq_decide]
  exact not_lt

theorem not_etCutGe_eq (e q : ℚ) : (!etCutGe (some e) (.finite q)) = decide (q < e) := by
  simp only [etCutGe, PyFloat.ge_finite_finite]
  rw [← decide_not, decide_eq_decide]
  exact not_le

/-- Claim C6 counterexample.  The claim says a record with timestamp
exactly equal to `end_time` is sent; `udptools.play` compares with
`packet.timestamp >= end_time` and stops *before* sending it: on the trace
with timestamps `[1, 5/2, 3]` and `end_time = 5/2`, only the payload of
the record at `1` is sent. -/
theorem udptools_end_time_inclusive_cex :
    udptoolsPlayLoop (fun _ => 0) (some (5 / 2))
        [encodeRecord 1 [1], encodeRecord (5 / 2) [2], encodeRecord 3 [3]] tpInit =
      ([.send [1]], none) := by
  with_unfolding_all decide

/-- Claim C6 (amended).  On a well-formed trace played to completion
without the trailing-sleep abort, `UDPPlay.__play_loop` sends exactly the
records up to the first one with timestamp strictly greater than
`end_time` (a record with timestamp equal to `end_time` is sent), while
`udptools.play` stops at the first record with timestamp `>=` `end_time`
(a record with timestamp equal to `end_time` is not sent); in both loops
every record after the cut-off record is unread. -/
theorem end_time_bounds_amended :
    (∀ (clock : Nat → ℚ) (e : ℚ) (lines : List (List Char)) (rs : List (ℚ × List Nat)),
      List.Forall₂ (fun l r => udpplayDecodeLine l = some (.finite r.1, r.2)) lines rs →
      (udpplayLoop clock (some e) lines upInit).2 = none →
      sendsOf (udpplayLoop clock (some e) lines upInit).1 =
        (rs.takeWhile fun r => decide (r.1 ≤ e)).map (fun r => r.2)) ∧
    (∀ (clock : Nat → ℚ) (e : ℚ) (lines : List (List Char)) (rs : List (ℚ × List Nat)),
      List.Forall₂ (fun l r => parse_packet l = .ok (.finite r.1, r.2)) lines rs →
      (udptoolsPlayLoop clock (some e) lines tpInit).2 = none →
      sendsOf (udptoolsPlayLoop clock (some e) lines tpInit).1 =
        (rs.takeWhile fun r => decide (r.1 < e)).map (fun r => r.2)) := by
  constructor
  · intro clock e lines rs hdec hok
    rw [upSends clock (some e) lines rs hdec upInit hok]
    have : (fun r : ℚ × List Nat => !etCutGt (some e) (.finite r.1)) =
        (fun r : ℚ × List Nat => decide (r.1 ≤ e)) := by
      funext r
      exact not_etCutGt_eq e r.1
    rw [this]
    rfl
  · intro clock e lines rs hdec hok
    rw [tpSends clock (some e) lines rs hdec tpInit hok]
    have : (fun r : ℚ × List Nat => !etCutGe (some e) (.finite r.1)) =
        (fun r : ℚ × List Nat => decide (r.1 < e)) := by
      funext r
      exact not_etCutGe_eq e r.1
    rw [this]
    rfl

/-- Witness for the amended C6 on the trace with timestamps `[1, 5/2, 3]`
and `end_time = 5/2`: `UDPPlay` sends the records at `1` and `5/2`;
`udptools.play` sends only the record at `1`. -/
theorem end_time_bounds_amended_witness :
    (List.Forall₂ (fun l r => udpplayDecodeLine l = some (.finite r.1, r.2))
        [encodeRecord 1 [1], encodeRecord (5 / 2) [2], encodeRecord 3 [3]]
        [(1, [1]), (5 / 2, [2]), (3, [3])] ∧
      sendsOf (udpplayLoop (fun _ => 0) (some (5 / 2))
        [encodeRecord 1 [1], encodeRecord (5 / 2) [2], encodeRecord 3 [3]] upInit).1 =
        [[1], [2]]) ∧
    (List.Forall₂ (fun l r => parse_packet l = .ok (.finite r.1, r.2))
        [encodeRecord 1 [1], encodeRecord (5 / 2) [2], encodeRecord 3 [3]]
        [(1, [1]), (5 / 2, [2]), (3, [3])] ∧
      sendsOf (udptoolsPlayLoop (fun _ => 0) (some (5 / 2))
        [encodeRecord 1 [1], encodeRecord (5 / 2) [2], encodeRecord 3 [3]] tpInit).1 =
        [[1]]) := by
  have h1 : List.Forall₂ (fun l r => udpplayDecodeLine l = some (.finite r.1, r.2))
      [encodeRecord 1 [1], encodeRecord (5 / 2) [2], encodeRecord 3 [3]]
      [(1, [1]), (5 / 2, [2]), (3, [3])] := by
    refine List.Forall₂.cons ?_ (List.Forall₂.cons ?_ (List.Forall₂.cons ?_ List.Forall₂.nil))
    · with_unfolding_all decide
    · with_unfolding_all decide
    · with_unfolding_all decide
  have h2 : List.Forall₂ (fun l r => parse_packet l = .ok (.finite r.1, r.2))
      [encodeRecord 1 [1], encodeRecord (5 / 2) [2], encodeRecord 3 [3]]
      [(1, [1]), (5 / 2, [2]), (3, [3])] := by
    refine List.Forall₂.cons ?_ (List.Forall₂.cons ?_ (List.Forall₂.cons ?_ List.Forall₂.nil))
    · with_unfolding_all decide
    · with_unfolding_all decide
    · with_unfolding_all decide
  constructor
  · refine ⟨h1, ?_⟩
    rw [end_time_bounds_amended.1 (fun _ => 0) (5 / 2) _ _ h1 (by with_unfolding_all decide)]
    with_unfolding_all decide
  · refine ⟨h2, ?_⟩
    rw [end_time_bounds_amended.2 (fun _ => 0) (5 / 2) _ _ h2 (by with_unfolding_all decide)]
    with_unfolding_all decide

/-- Claim C7 counterexample.  `UDPPlay.__play_loop` has no handler around
its record decode: a trace with one corrupt line between two valid records
aborts the playback process at the corrupt line, delivering neither valid
record — the claim says both are delivered and playback never aborts. -/
theorem udpplay_corrupt_line_aborts_cex :
    udpplayLoop (fun _ => 0) none
        [encodeRecord 0 [5], "nonsense\n".toList, encodeRecord 1 [7]] upInit =
      ([], some .decodeError) := by
  with_unfolding_all decide

/-- Claim C7 (amended).  `udptools.play` catches the `ValueError` of
`Packet(line)` and skips the offending line: a trace with one corrupt line
between two valid records still delivers both valid payloads, in order,
with no abort.  `UDPPlay.__play_loop` instead aborts on the corrupt line
(see the counterexample). -/
theorem udptools_play_skips_corrupt_amended (clock : Nat → ℚ)
    (l1 lbad l2 : List Char) (t1 t2 : ℚ) (p1 p2 : List Nat) (e : ParseErr)
    (h1 : parse_packet l1 = .ok (.finite t1, p1))
    (hbad : parse_packet lbad = .error e)
    (h2 : parse_packet l2 = .ok (.finite t2, p2)) :
    udptoolsPlayLoop clock none [l1, lbad, l2] tpInit = ([.send p1, .send p2], none) := by
  rw [udptoolsPlayLoop_fill clock none l1 [lbad, l2] tpInit _ _ h1 rfl (by simp [tpInit]),
    udptoolsPlayLoop_cons_bad clock none lbad [l2] _ e hbad,
    udptoolsPlayLoop_fill clock none l2 [] _ _ _ h2 rfl (by simp [tpInit]),
    udptoolsPlayLoop, tpFinish]
  simp [tpInit]

/-- Witness for the amended C7 on a concrete corrupt-in-the-middle trace. -/
theorem udptools_play_skips_corrupt_amended_witness :
    parse_packet (encodeRecord 0 [5]) = .ok (.finite 0, [5]) ∧
    parse_packet "nonsense\n".toList = .error .malformedRecord ∧
    parse_packet (encodeRecord 1 [7]) = .ok (.finite 1, [7]) ∧
    udptoolsPlayLoop (fun _ => 0) none
        [encodeRecord 0 [5], "nonsense\n".toList, encodeRecord 1 [7]] tpInit =
      ([.send [5], .send [7]], none) :=
  ⟨by with_unfolding_all decide, by with_unfolding_all decide, by with_unfolding_all decide,
    udptools_play_skips_corrupt_amended (fun _ => 0) _ _ _ 0 1 [5] [7] .malformedRecord
      (by with_unfolding_all decide) (by with_unfolding_all decide)
      (by with_unfolding_all decide)⟩

theorem getLastD_of_ne_nil {α : Type} (l : List α) (d₁ d₂ : α) (h : l ≠ []) :
    l.getLastD d₁ = l.getLastD d₂ := by
  cases l with
  | nil => exact absurd rfl h
  | cons a t => simp [List.getLastD]

/-- Fewer than 99 records never fill the batch: with no batch yet played,
`UDPPlay.__play_loop` performs no sleep and sends everything at the
trailing flush. -/
theorem upFill (clock : Nat → ℚ) : ∀ (lines : List (List Char)) (rs : List (ℚ × List Nat)),
    List.Forall₂ (fun l r => udpplayDecodeLine l = some (.finite r.1, r.2)) lines rs →
    ∀ st : UPState, st.nextPlay = none → st.buf.length + lines.length < 99 →
      udpplayLoop clock none lines st =
        ((st.buf ++ rs.map (fun r => r.2)).map PlayAction.send, none) := by
  intro lines rs hdec
  induction hdec with
  | nil =>
    intro st hnp hlen
    rw [udpplayLoop, upFinish, hnp]
    simp
  | @cons l r lines' rs' hlr htl ih =>
    intro st hnp hlen
    have hlen0 : st.buf.length + (lines'.length + 1) < 99 := by
      simpa using hlen
    have hlen1 : (st.buf ++ [r.2]).length < 99 := by
      simp only [List.length_append, List.length_cons, List.length_nil]
      omega
    rw [udpplayLoop_fill clock none l lines' st _ _ hlr rfl hlen1]
    rw [ih ⟨st.buf ++ [r.2],
      if (st.buf ++ [r.2]).length = 1 then PyFloat.finite r.1 else st.firstTs,
      st.nextPlay, st.k⟩ hnp (by
        simp only [List.length_append, List.length_cons, List.length_nil]
        omega)]
    simp

/-- Exactly at the 99th record the batch is flushed: starting from a
non-empty buffer whose first record's timestamp is `f0` and no batch yet
played, when the remaining records bring the total to 99 the loop sends
all payloads as one batch and then performs the unconditional trailing
wait `next_play_time - time.time()`, which aborts when negative. -/
theorem upFlushLast (clock : Nat → ℚ) : ∀ (lines : List (List Char)) (rs : List (ℚ × List Nat)),
    List.Forall₂ (fun l r => udpplayDecodeLine l = some (.finite r.1, r.2)) lines rs →
    ∀ (st : UPState) (f0 : ℚ), st.nextPlay = none → st.firstTs = .finite f0 →
      st.buf ≠ [] → st.buf.length + lines.length = 99 → lines ≠ [] →
      udpplayLoop clock none lines st =
        if clock st.k + ((rs.getLastD (0, [])).1 - f0) - clock (st.k + 1) < 0 then
          ((st.buf ++ rs.map (fun r => r.2)).map PlayAction.send, some .negativeSleep)
        else
          ((st.buf ++ rs.map (fun r => r.2)).map PlayAction.send ++
            [PlayAction.sleep (.finite (clock st.k + ((rs.getLastD (0, [])).1 - f0) -
              clock (st.k + 1)))], none) := by
  intro lines rs hdec
  induction hdec with
  | nil =>
    intro st f0 hnp hf hne hlen habs
    exact absurd rfl habs
  | @cons l r lines' rs' hlr htl ih =>
    intro st f0 hnp hf hne hlen _
    cases htl with
    | nil =>
      have hlen1 : ¬(st.buf ++ [r.2]).length < 99 := by
        simp only [List.length_append, List.length_singleton]
        simp only [List.length_cons, List.length_nil] at hlen
        omega
      rw [udpplayLoop_flush_none clock none l [] st _ _ hlr rfl hlen1 hnp]
      rw [hf]
      rw [udpplayLoop, upFinish]
      simp only [PyFloat.sub_finite_finite, PyFloat.add_finite_finite, PyFloat.lt_finite_finite]
      by_cases hneg : clock st.k + (r.1 - f0) - clock (st.k + 1) < 0
      · rw [if_pos (by simpa using hneg), if_pos (by simpa using hneg)]
        simp
      · rw [if_neg (by simpa using hneg), if_neg (by simpa using hneg)]
        simp [PyFloat.sub, PyFloat.add]
    | @cons l' r' lines'' rs'' hlr' htl' =>
      have hne' : (l' :: lines'') ≠ [] := by simp
      have hrs' : (r' :: rs'') ≠ ([] : List (ℚ × List Nat)) := by simp
      have hlen1 : (st.buf ++ [r.2]).length < 99 := by
        simp only [List.length_append, List.length_singleton]
        simp only [List.length_cons] at hlen
        omega
      rw [udpplayLoop_fill clock none l (l' :: lines'') st _ _ hlr rfl hlen1]
      have hbufne : st.buf ++ [r.2] ≠ [] := by simp
      have hlennew : (st.buf ++ [r.2]).length + (l' :: lines'').length = 99 := by
        simp only [List.length_append, List.length_singleton]
        simp only [List.length_cons] at hlen ⊢
        omega
      have hfts : (if (st.buf ++ [r.2]).length = 1 then PyFloat.finite r.1 else st.firstTs) =
          .finite f0 := by
        have : (st.buf ++ [r.2]).length ≠ 1 := by
          have : st.buf.length ≠ 0 := fun h0 => hne (List.length_eq_zero.mp h0)
          simp only [List.length_append, List.length_singleton]
          omega
        rw [if_neg this, hf]
      rw [ih ⟨st.buf ++ [r.2],
        if (st.buf ++ [r.2]).length = 1 then PyFloat.finite r.1 else st.firstTs,
        st.nextPlay, st.k⟩ f0 hnp hfts hbufne hlennew hne']
      have hlast : ((r :: r' :: rs'').getLastD (0, [])) = ((r' :: rs'').getLastD (0, [])) := by
        rw [List.getLastD_cons (0, []) r (r' :: rs'')]
        exact getLastD_of_ne_nil (r' :: rs'') r (0, []) hrs'
      simp only [hlast]
      by_cases hneg : clock st.k +
          (((r' :: rs'').getLastD (0, [])).1 - f0) - clock (st.k + 1) < 0
      · rw [if_pos hneg, if_pos hneg]
        simp
      · rw [if_neg hneg, if_neg hneg]
        simp

theorem sleep_not_mem_map_send (d : PyFloat) (l : List (List Nat))
    (h : PlayAction.sleep d ∈ l.map PlayAction.send) : False := by
  obtain ⟨p, -, hp⟩ := List.mem_map.mp h
  cases hp

theorem upFinish_sleeps (clock : Nat → ℚ) (st : UPState) (d : PyFloat)
    (hmem : PlayAction.sleep d ∈ (upFinish clock st).1) :
    PyFloat.lt d (.finite 0) = false := by
  obtain ⟨buf, fts, np, k⟩ := st
  cases np with
  | none =>
    simp only [upFinish] at hmem
    exact absurd hmem (fun h => sleep_not_mem_map_send d buf h)
  | some npt =>
    simp only [upFinish] at hmem
    by_cases hneg : PyFloat.lt (PyFloat.sub npt (.finite (clock k))) (.finite 0) = true
    · rw [if_pos hneg] at hmem
      simp at hmem
    · rw [if_neg hneg] at hmem
      rcases List.mem_cons.mp hmem with heq | hmem'
      · injection heq with heq
        subst heq
        rw [Bool.not_eq_true] at hneg
        exact hneg
      · exact absurd hmem' (fun h => sleep_not_mem_map_send d buf h)

/-- No sleep performed by `UDPPlay.__play_loop` has a negative duration:
the in-loop wait is guarded by `sleep_time > 0`, and a negative trailing
wait raises instead of sleeping. -/
theorem upSleepsNonneg (clock : Nat → ℚ) (et : Option ℚ) :
    ∀ (lines : List (List Char)) (st : UPState) (d : PyFloat),
    PlayAction.sleep d ∈ (udpplayLoop clock et lines st).1 →
    PyFloat.lt d (.finite 0) = false
  | [], st, d, hmem => by
    rw [udpplayLoop] at hmem
    exact upFinish_sleeps clock st d hmem
  | l :: rest, st, d, hmem => by
    cases hd : udpplayDecodeLine l with
    | none =>
      rw [udpplayLoop_cons_bad clock et l rest st hd] at hmem
      simp at hmem
    | some tspd =>
      obtain ⟨ts, pd⟩ := tspd
      by_cases hcut : etCutGt et ts = true
      · rw [udpplayLoop_cut clock et l rest st ts pd hd hcut] at hmem
        exact upFinish_sleeps clock st d hmem
      · rw [Bool.not_eq_true] at hcut
        by_cases hlen : (st.buf ++ [pd]).length < 99
        · rw [udpplayLoop_fill clock et l rest st ts pd hd hcut hlen] at hmem
          exact upSleepsNonneg clock et rest _ d hmem
        · cases hnp : st.nextPlay with
          | none =>
            rw [udpplayLoop_flush_none clock et l rest st ts pd hd hcut hlen hnp] at hmem
            rcases List.mem_append.mp hmem with hmem' | hmem'
            · exact absurd hmem' (fun h => sleep_not_mem_map_send d _ h)
            · exact upSleepsNonneg clock et rest _ d hmem'
          | some npt =>
            rw [udpplayLoop_flush_some clock et l rest st ts npt pd hd hcut hlen hnp] at hmem
            rcases List.mem_append.mp hmem with hmem' | hmem'
            · rcases List.mem_append.mp hmem' with hmem'' | hmem''
              · by_cases hgt : PyFloat.gt (PyFloat.sub npt (.finite (clock st.k)))
                    (.finite 0) = true
                · rw [if_pos hgt] at hmem''
                  rcases List.mem_singleton.mp hmem'' with heq
                  injection heq with heq
                  subst heq
                  exact PyFloat.lt_false_of_gt hgt
                · rw [if_neg hgt] at hmem''
                  simp at hmem''
              · exact absurd hmem'' (fun h => sleep_not_mem_map_send d _ h)
            · exact upSleepsNonneg clock et rest _ d hmem'

/-- Claim C2 counterexample.  On a trace of only 99 valid records (which
under the claimed capacity-100 batching would never fill a batch, never
set `next_play_time`, and so never sleep), `UDPPlay.__play_loop` flushes a
timed batch at the 99th record, and with a clock that has advanced past
`next_play_time` the trailing wait is `time.sleep` of a negative duration,
which raises — the batch capacity is 99, not 100, and the trailing wait is
not guarded against negative durations. -/
theorem udpplay_negative_trailing_sleep_cex :
    (udpplayLoop (fun k => if k = 0 then 0 else 1000) none
        ((List.range 99).map (fun i => encodeRecord i [0])) upInit).2 =
      some .negativeSleep ∧
    sendsOf (udpplayLoop (fun k => if k = 0 then 0 else 1000) none
        ((List.range 99).map (fun i => encodeRecord i [0])) upInit).1 =
      List.replicate 99 [0] := by
  with_unfolding_all decide

/-- Claim C2 (amended).  `UDPPlay.__play_loop` buffering: (1) fewer than
99 valid records never fill a batch — they are all sent by the trailing
flush with no sleep; (2) exactly 99 records flush one batch: all 99
payloads are sent back-to-back, `buffer_time` is the 99th record's
timestamp minus the first record's timestamp, `next_play_time` is the send
time plus `buffer_time`, and the trailing wait
`time.sleep(next_play_time - time.time())` is unconditional — it raises
(aborting playback) when the duration is negative; (3) every sleep the
loop actually performs has a non-negative duration — the in-loop wait is
guarded by `sleep_time > 0`; (4) in the `udptools.play` revision the batch
flushes at 100 records, but whenever a previous batch was played and the
wait guard `next_play_time - time() > 0` holds, the loop executes
`sleep(sleep_time)` with `sleep_time` undefined and aborts with
`NameError`. -/
theorem udpplay_buffering_amended :
    (∀ (clock : Nat → ℚ) (lines : List (List Char)) (rs : List (ℚ × List Nat)),
      List.Forall₂ (fun l r => udpplayDecodeLine l = some (.finite r.1, r.2)) lines rs →
      lines.length < 99 →
      udpplayLoop clock none lines upInit =
        ((rs.map (fun r => r.2)).map PlayAction.send, none)) ∧
    (∀ (clock : Nat → ℚ) (lines : List (List Char)) (r : ℚ × List Nat)
      (rs' : List (ℚ × List Nat)),
      List.Forall₂ (fun l r => udpplayDecodeLine l = some (.finite r.1, r.2)) lines (r :: rs') →
      lines.length = 99 →
      udpplayLoop clock none lines upInit =
        if clock 0 + (((r :: rs').getLastD (0, [])).1 - r.1) - clock 1 < 0 then
          (((r :: rs').map (fun x => x.2)).map PlayAction.send, some .negativeSleep)
        else
          (((r :: rs').map (fun x => x.2)).map PlayAction.send ++
            [PlayAction.sleep (.finite (clock 0 + (((r :: rs').getLastD (0, [])).1 - r.1) -
              clock 1))], none)) ∧
    (∀ (clock : Nat → ℚ) (et : Option ℚ) (lines : List (List Char)) (st : UPState)
      (d : PyFloat),
      PlayAction.sleep d ∈ (udpplayLoop clock et lines st).1 →
      PyFloat.lt d (.finite 0) = false) ∧
    (∀ (clock : Nat → ℚ) (et : Option ℚ) (l : List Char) (rest : List (List Char))
      (st : TPState) (ts npt : PyFloat) (pd : List Nat),
      parse_packet l = .ok (ts, pd) → etCutGe et ts = false →
      ¬(st.buf ++ [(ts, pd)]).length < 100 → st.nextPlay = some npt →
      PyFloat.gt (PyFloat.sub npt (.finite (clock st.k))) (.finite 0) = true →
      udptoolsPlayLoop clock et (l :: rest) st = ([], some .nameErrorSleepTime)) := by
  refine ⟨?_, ?_, ?_, ?_⟩
  · intro clock lines rs hdec hlen
    rw [upFill clock lines rs hdec upInit rfl (by simpa [upInit] using hlen)]
    simp [upInit]
  · intro clock lines r rs' hdec hlen
    cases hdec with
    | @cons l b lines' l₂ hlr htl =>
      have hlen' : lines'.length = 98 := by simpa using hlen
      have hne' : lines' ≠ [] := by
        intro h
        rw [h] at hlen'
        simp at hlen'
      have hrs' : rs' ≠ ([] : List (ℚ × List Nat)) := by
        intro h
        subst h
        cases htl
        exact hne' rfl
      rw [udpplayLoop_fill clock none l lines' upInit _ _ hlr rfl (by simp [upInit])]
      rw [upFlushLast clock lines' rs' htl
        ⟨upInit.buf ++ [r.2],
          if (upInit.buf ++ [r.2]).length = 1 then PyFloat.finite r.1 else upInit.firstTs,
          upInit.nextPlay, upInit.k⟩ r.1 rfl (by simp [upInit]) (by simp [upInit])
        (by simp [upInit, hlen']) hne']
      have hlast : ((r :: rs').getLastD (0, [])) = (rs'.getLastD (0, [])) := by
        rcases rs' with _ | ⟨r', rs''⟩
        · exact absurd rfl hrs'
        · rw [List.getLastD_cons (0, []) r (r' :: rs'')]
          exact getLastD_of_ne_nil (r' :: rs'') r (0, []) hrs'
      rw [hlast]
      simp only [upInit]
      by_cases hneg : clock 0 + ((rs'.getLastD (0, [])).1 - r.1) - clock 1 < 0
      · rw [if_pos hneg, if_pos hneg]
        simp
      · rw [if_neg hneg, if_neg hneg]
        simp
  · intro clock et lines st d hmem
    exact upSleepsNonneg clock et lines st d hmem
  · intro clock et l rest st ts npt pd h hcut hlen hnp hgt
    exact udptoolsPlayLoop_flush_guard clock et l rest st ts npt pd h hcut hlen hnp hgt

/-- Witness for the amended C2 on a one-record trace: no batch fills, no
sleep happens, and the record is sent by the trailing flush. -/
theorem udpplay_buffering_amended_witness :
    List.Forall₂ (fun l r => udpplayDecodeLine l = some (.finite r.1, r.2))
      [encodeRecord 0 [9]] [((0 : ℚ), [9])] ∧
    [encodeRecord 0 [9]].length < 99 ∧
    udpplayLoop (fun _ => 0) none [encodeRecord 0 [9]] upInit = ([.send [9]], none) := by
  have hf : List.Forall₂ (fun l r => udpplayDecodeLine l = some (.finite r.1, r.2))
      [encodeRecord 0 [9]] [((0 : ℚ), [9])] :=
    List.Forall₂.cons (by with_unfolding_all decide) List.Forall₂.nil
  refine ⟨hf, by decide, ?_⟩
  rw [udpplay_buffering_amended.1 (fun _ => 0) _ _ hf (by decide)]
  rfl
